import Mathlib

/-!
# Verification of the agentic literature-review pipeline core

Shallow embedding of the pipeline core of the repository (DuckDB paper
store, deduplication engine, screening batch engine, human-in-the-loop
resume, finalize pass, quality assessment, relevance scoring, snowball
expansion controller), together with proofs and refutations of the frozen
claims about it.

Conventions used throughout:
* The `papers` table is a `List Paper`; each row's nullable VARCHAR/FLOAT
  columns are `Option` fields.  `id` is the PRIMARY KEY, so stores carry a
  `Nodup` hypothesis on ids where a proof needs it.
* Remote LLM calls are oracles: a screening batch response is
  `Option (List DecisionEntry)` where `none` models the remote call
  raising an exception and `some entries` models a parsed JSON response.
  `ThreadPoolExecutor`/`as_completed` completion order is modelled by an
  explicit index list `σ` over the batch results.
* Python floats are idealised as rationals (`ℚ`); `round(x, 1)` is
  modelled by `pyRound1` (round-half-to-even, Python's rounding mode).
* Python falsy string tests (`not p.get(...)`) are modelled by `Option`
  being `none`; the pipeline never writes an empty string into the fields
  it tests this way.
-/

namespace LitReview

/-- One row of the `papers` table (src/data/database.py `_init_schema`),
restricted to the columns the claims touch.  Nullable columns are
`Option`; defaults are the state of a freshly ingested row. -/
structure Paper where
  id : String
  doi : Option String := none
  title : String := ""
  abstract : Option String := none
  citation_count : Option Int := none
  openalex_id : Option String := none
  screening_pass1 : Option String := none
  screening_pass1_reason : String := ""
  screening_pass1_confidence : Option ℚ := none
  human_decision : Option String := none
  quality_score : Option ℚ := none
  quality_notes : Option String := none
  quality_flag : Option String := none
  relevance_score : Option ℚ := none
  final_status : Option String := none
  found_via : String := "search"
  deriving DecidableEq, Repr, Inhabited

/-- `update_paper` (src/data/database.py): `UPDATE papers SET ... WHERE id = ?`.
The field map of a concrete call site is the function `f`. -/
def updatePaper (db : List Paper) (pid : String) (f : Paper → Paper) : List Paper :=
  db.map (fun p => if p.id = pid then f p else p)

/-- The column list of the `INSERT INTO papers (...)` in `upsert_papers`
(src/data/database.py): bibliographic columns are copied from the incoming
record, every pipeline-state column is left NULL. -/
def insertRow (p : Paper) : Paper :=
  { id := p.id, doi := p.doi, title := p.title, abstract := p.abstract,
    citation_count := p.citation_count, openalex_id := p.openalex_id,
    found_via := p.found_via }

/-- `upsert_papers` (src/data/database.py): for each incoming record, skip
it when a row with the same id already exists (the `SELECT id ... fetchone`
check, which also sees rows inserted earlier in the same call), otherwise
append a fresh row; returns the store and the number inserted. -/
def upsertPapers (db : List Paper) : List Paper → List Paper × ℕ
  | [] => (db, 0)
  | p :: rest =>
    if db.any (fun q => q.id = p.id) then upsertPapers db rest
    else
      let r := upsertPapers (db ++ [insertRow p]) rest
      (r.1, r.2 + 1)

/-- `count_papers(...)["included"]` (src/data/database.py):
`COUNT(*) ... WHERE final_status = 'INCLUDED'`. -/
def countIncluded (db : List Paper) : ℕ :=
  (db.filter (fun p => p.final_status = some "INCLUDED")).length

/-! ## Deduplication engine (src/agents/search_agent.py) -/

/-- A character kept by `re.sub(r"[^a-z0-9]", "", ·)`. -/
def isLowerAlnum (c : Char) : Bool :=
  ('a' ≤ c && c ≤ 'z') || ('0' ≤ c && c ≤ '9')

/-- `SearchAgent._title_key`: lower-case the title (`str.lower`, modelled
per character), strip every character outside `[a-z0-9]`, truncate to 60
characters (`[:60]`). -/
def titleKey (title : String) : String :=
  String.mk (((title.toList.map Char.toLower).filter isLowerAlnum).take 60)

/-- Python `str.strip()`: drop leading and trailing whitespace. -/
def pyStrip (l : List Char) : List Char :=
  ((l.dropWhile Char.isWhitespace).reverse.dropWhile Char.isWhitespace).reverse

/-- The DOI normalisation inline in `SearchAgent._deduplicate`:
`(p.get("doi") or "").lower().strip()`. -/
def normDoi (p : Paper) : String :=
  String.mk (pyStrip ((p.doi.getD "").toList.map Char.toLower))

/-- State threaded through `SearchAgent._deduplicate`: the kept documents
and the two cross-query seen-sets (Python `set`s, modelled by lists used
only through membership). -/
structure DedupState where
  unique : List Paper
  seenDois : List String
  seenTitles : List String
  deriving DecidableEq, Repr

/-- One iteration of the loop body of `SearchAgent._deduplicate`. -/
def dedupStep (s : DedupState) (p : Paper) : DedupState :=
  let doi := normDoi p
  let tk := titleKey p.title
  if doi ≠ "" ∧ doi ∈ s.seenDois then s
  else if tk ∈ s.seenTitles then s
  else
    { unique := s.unique ++ [p],
      seenDois := if doi ≠ "" then s.seenDois ++ [doi] else s.seenDois,
      seenTitles := s.seenTitles ++ [tk] }

/-- `SearchAgent._deduplicate` on one query's result list, starting from
the given cross-query seen-sets. -/
def deduplicate (papers : List Paper) (ds ts : List String) : DedupState :=
  papers.foldl dedupStep ⟨[], ds, ts⟩

/-- The drop condition of `_deduplicate`, as the claims word it: the
(non-empty, case-normalised) DOI is already seen, or the title key is
already seen. -/
def dropCond (p : Paper) (ds ts : List String) : Prop :=
  (normDoi p ≠ "" ∧ normDoi p ∈ ds) ∨ titleKey p.title ∈ ts

instance (p : Paper) (ds ts : List String) : Decidable (dropCond p ds ts) := by
  unfold dropCond; infer_instance

/-- Invariant carried by the dedup fold: every kept document's non-empty
DOI and title key are in the respective seen-sets, and kept documents are
pairwise distinct on non-empty DOIs and on title keys. -/
def DedupInv (s : DedupState) : Prop :=
  (∀ p ∈ s.unique, normDoi p ≠ "" → normDoi p ∈ s.seenDois) ∧
  (∀ p ∈ s.unique, titleKey p.title ∈ s.seenTitles) ∧
  s.unique.Pairwise (fun p q => normDoi p ≠ normDoi q ∨ normDoi p = "") ∧
  s.unique.Pairwise (fun p q => titleKey p.title ≠ titleKey q.title)

/-- The storage effect of `SearchAgent.run` over the successive query
result sets of one search stage: the two seen-sets start empty, are
threaded through every `_deduplicate` call, and each call's unique list is
passed to `upsert_papers` on the growing store. -/
def searchStageStored (resultSets : List (List Paper)) : List Paper :=
  (resultSets.foldl
    (fun acc rs =>
      let s := deduplicate rs acc.2.1 acc.2.2
      ((upsertPapers acc.1 s.unique).1, s.seenDois, s.seenTitles))
    (([], [], []) : List Paper × List String × List String)).1

/-! ## Screening engine (src/agents/screening_agent.py) -/

/-- `config.DEFAULT_SCREENING_BATCH_SIZE` (src/config.py). -/
def DEFAULT_SCREENING_BATCH_SIZE : ℕ := 20

/-- One entry of the `decisions` array of a screening response.  A missing
or empty `id` (both falsy in `if not pid: continue`) is modelled as `""`;
a missing `decision`, `confidence` or `reason` key is `none` (the commit
pass substitutes the `dict.get` defaults `"BORDERLINE"`, `50`, `""`). -/
structure DecisionEntry where
  id : String := ""
  decision : Option String := none
  confidence : Option ℚ := none
  reason : Option String := none
  deriving DecidableEq, Repr

/-- Python `str.upper()`, modelled per character. -/
def pyUpper (s : String) : String :=
  String.mk (s.toList.map Char.toUpper)

/-- `d.get("decision", "BORDERLINE").upper()` followed by the label check
of `run_pass1`: anything outside INCLUDE / EXCLUDE / BORDERLINE becomes
BORDERLINE. -/
def coerceDecision (o : Option String) : String :=
  let d := pyUpper (o.getD "BORDERLINE")
  if d = "INCLUDE" ∨ d = "EXCLUDE" ∨ d = "BORDERLINE" then d else "BORDERLINE"

/-- `screen_batch` (src/agents/screening_agent.py): on success return the
response's decision list (`result.get("decisions", [])`); when the remote
call raises (`r = none`), synthesise one BORDERLINE / 50 / "API error"
entry per paper of the batch. -/
def screenBatchResult (batch : List Paper) (r : Option (List DecisionEntry)) :
    List DecisionEntry :=
  match r with
  | some entries => entries
  | none =>
    batch.map (fun p =>
      { id := p.id, decision := some "BORDERLINE", confidence := some 50,
        reason := some "API error" })

/-- Helper for `chunkList`: consume the list, emitting a chunk whenever
the remaining capacity `k` hits zero. -/
def chunkGo (n : ℕ) : List Paper → ℕ → List Paper → List (List Paper)
  | [], _, acc => if acc.isEmpty then [] else [acc]
  | x :: xs, k + 1, acc => chunkGo n xs k (acc ++ [x])
  | x :: xs, 0, acc => acc :: chunkGo n xs (n - 1) [x]

/-- The batching `[unscreened[i : i + batch_size] for i in range(0, len, batch_size)]`
of `run_pass1`. -/
def chunkList (n : ℕ) (l : List Paper) : List (List Paper) :=
  chunkGo n l n []

/-- The papers picked up by `run_pass1`:
`[p for p in papers if not p.get("screening_pass1")]`. -/
def unscreenedOf (db : List Paper) : List Paper :=
  db.filter (fun p => p.screening_pass1 = none)

/-- Ids of the unscreened (submitted) papers. -/
def unscreenedIds (db : List Paper) : List String :=
  (unscreenedOf db).map (fun p => p.id)

/-- The non-empty ids occurring in a decision list. -/
def nonemptyIds (entries : List DecisionEntry) : List String :=
  (entries.map (fun d => d.id)).filter (fun s => s ≠ "")

/-- The `all_decisions` list of `run_pass1`: worker results (one per
batch, failure batches synthesised by `screen_batch`) concatenated in
`as_completed` completion order `σ` (a permutation of the batch indices
in any real execution; an out-of-range index contributes nothing). -/
def allDecisions (db : List Paper) (resps : List (Option (List DecisionEntry)))
    (σ : List ℕ) : List DecisionEntry :=
  let batches := chunkList DEFAULT_SCREENING_BATCH_SIZE (unscreenedOf db)
  let results := (batches.zip resps).map (fun br => screenBatchResult br.1 br.2)
  (σ.map (fun i => results.getD i [])).flatten

/-- One iteration of the single-threaded commit loop of `run_pass1`:
skip falsy ids, coerce the label, write the screening fields, and
additionally set `final_status = 'EXCLUDED'` for an EXCLUDE decision. -/
def commitDecision (db : List Paper) (d : DecisionEntry) : List Paper :=
  if d.id = "" then db
  else
    let dec := coerceDecision d.decision
    let db1 := updatePaper db d.id (fun p =>
      { p with screening_pass1 := some dec,
               screening_pass1_reason := d.reason.getD "",
               screening_pass1_confidence := some (d.confidence.getD 50) })
    if dec = "EXCLUDE" then
      updatePaper db1 d.id (fun p => { p with final_status := some "EXCLUDED" })
    else db1

/-- `ScreeningAgent.run_pass1`: early return when nothing is unscreened,
otherwise run all batches (concurrently; DB writes happen after all
futures complete) and commit every collected decision. -/
def runPass1 (db : List Paper) (resps : List (Option (List DecisionEntry)))
    (σ : List ℕ) : List Paper :=
  if (unscreenedOf db).isEmpty then db
  else (allDecisions db resps σ).foldl commitDecision db

/-- Observable events of one `run_pass1` call: a worker future completing
(the `as_completed` loop body) or one `update_paper` group for a decision
entry in the commit loop. -/
inductive ScreenEvent where
  | workerDone (batchIndex : ℕ)
  | dbWrite (paperId : String)
  deriving DecidableEq, Repr

/-- The event trace of `run_pass1`: the code collects every future's
result inside the `ThreadPoolExecutor` block and only then enters the
single-threaded commit loop, so the trace is all completions followed by
all writes. -/
def runPass1Trace (db : List Paper) (resps : List (Option (List DecisionEntry)))
    (σ : List ℕ) : List ScreenEvent :=
  if (unscreenedOf db).isEmpty then []
  else
    σ.map ScreenEvent.workerDone ++
      ((allDecisions db resps σ).filter (fun d => d.id ≠ "")).map
        (fun d => ScreenEvent.dbWrite d.id)

/-- `ScreeningAgent.apply_human_decisions`: for every BORDERLINE paper,
a human INCLUDE resets the screening decision to INCLUDE and clears
`final_status`; a human EXCLUDE sets `final_status = 'EXCLUDED'`. -/
def applyHumanDecisions (db : List Paper) : List Paper :=
  (db.filter (fun p => p.screening_pass1 = some "BORDERLINE")).foldl
    (fun acc p =>
      if p.human_decision = some "INCLUDE" then
        updatePaper acc p.id (fun q =>
          { q with screening_pass1 := some "INCLUDE", final_status := none })
      else if p.human_decision = some "EXCLUDE" then
        updatePaper acc p.id (fun q => { q with final_status := some "EXCLUDED" })
      else acc)
    db

/-- `ScreeningAgent.finalize_included`: every paper with decision INCLUDE
and no final status becomes `final_status = 'INCLUDED'`. -/
def finalizeIncluded (db : List Paper) : List Paper :=
  db.foldl
    (fun acc p =>
      if p.screening_pass1 = some "INCLUDE" ∧ p.final_status = none then
        updatePaper acc p.id (fun q => { q with final_status := some "INCLUDED" })
      else acc)
    db

/-- The operations of claim C1, with `run_pass1` parameterised by its
remote responses and completion order. -/
inductive ScreenOp where
  | pass1 (resps : List (Option (List DecisionEntry))) (σ : List ℕ)
  | applyHuman
  | finalize

/-- Apply one screening operation to the store. -/
def applyOp (db : List Paper) : ScreenOp → List Paper
  | .pass1 resps σ => runPass1 db resps σ
  | .applyHuman => applyHumanDecisions db
  | .finalize => finalizeIncluded db

/-- Apply a sequence of screening operations left to right. -/
def runOps (db : List Paper) (ops : List ScreenOp) : List Paper :=
  ops.foldl applyOp db

/-- The response contract the screening prompt demands ("Return exactly
{n_papers} decisions", one per submitted id): every collected decision
targets a submitted (unscreened) document and no id is decided twice. -/
def WFResponse (db : List Paper) (resps : List (Option (List DecisionEntry)))
    (σ : List ℕ) : Prop :=
  (∀ d ∈ allDecisions db resps σ, d.id = "" ∨ d.id ∈ unscreenedIds db) ∧
  (nonemptyIds (allDecisions db resps σ)).Nodup

instance (db : List Paper) (resps : List (Option (List DecisionEntry)))
    (σ : List ℕ) : Decidable (WFResponse db resps σ) := by
  unfold WFResponse; infer_instance

/-- Well-formedness of one operation: only `pass1` constrains the oracle. -/
def WFOp (db : List Paper) : ScreenOp → Prop
  | .pass1 resps σ => WFResponse db resps σ
  | .applyHuman => True
  | .finalize => True

instance instDecWFOp (db : List Paper) : (op : ScreenOp) → Decidable (WFOp db op)
  | .pass1 resps σ => inferInstanceAs (Decidable (WFResponse db resps σ))
  | .applyHuman => .isTrue trivial
  | .finalize => .isTrue trivial

/-- Every operation of the sequence is well formed in the state where it
executes. -/
def WFSeq : List Paper → List ScreenOp → Prop
  | _, [] => True
  | db, op :: rest => WFOp db op ∧ WFSeq (applyOp db op) rest

instance instDecWFSeq : (db : List Paper) → (ops : List ScreenOp) → Decidable (WFSeq db ops)
  | _, [] => .isTrue trivial
  | db, op :: rest =>
    have : Decidable (WFSeq (applyOp db op) rest) := instDecWFSeq _ _
    inferInstanceAs (Decidable (_ ∧ _))

/-- The per-row finalize invariant of claim C1. -/
def ScreenInvRow (p : Paper) : Prop :=
  (p.final_status = some "INCLUDED" → p.screening_pass1 = some "INCLUDE") ∧
  (p.final_status = some "EXCLUDED" →
    p.screening_pass1 = some "EXCLUDE" ∨ p.human_decision = some "EXCLUDE")

instance (p : Paper) : Decidable (ScreenInvRow p) := by
  unfold ScreenInvRow; infer_instance

/-- The store-wide finalize invariant of claim C1. -/
def ScreenInv (db : List Paper) : Prop := ∀ p ∈ db, ScreenInvRow p

instance (db : List Paper) : Decidable (ScreenInv db) := by
  unfold ScreenInv; infer_instance

/-- A store in which screening has not yet run: every paper still has a
NULL screening decision and a NULL final status (`human_decision` may be
anything, it is written by the review UI, not by these operations). -/
def FreshDb (db : List Paper) : Prop :=
  ∀ p ∈ db, p.screening_pass1 = none ∧ p.final_status = none

instance (db : List Paper) : Decidable (FreshDb db) := by
  unfold FreshDb; infer_instance

/-! ## Quality assessment (src/agents/quality_agent.py) -/

/-- The fields of a parsed quality response that `assess_paper` reads. -/
structure QualityResp where
  quality_score : Option ℚ := none
  quality_notes : Option String := none
  flag : Option String := none
  deriving DecidableEq, Repr

/-- `assess_paper`: on success take the response fields with their
`dict.get` defaults; when the remote call raises, substitute the neutral
score 50, "Assessment failed." and flag "none". -/
def assessPaper (p : Paper) (r : Option QualityResp) : String × ℚ × String × String :=
  match r with
  | some res => (p.id, res.quality_score.getD 50, res.quality_notes.getD "", res.flag.getD "none")
  | none => (p.id, 50, "Assessment failed.", "none")

/-- One `update_paper` call of the quality commit loop. -/
def qualityCommit (db : List Paper) (res : String × ℚ × String × String) : List Paper :=
  updatePaper db res.1 (fun q =>
    { q with quality_score := some res.2.1,
             quality_notes := some res.2.2.1,
             quality_flag := some res.2.2.2 })

/-- The papers `QualityAgent.run` assesses: `final_status = 'INCLUDED'`
and `quality_score is None`. -/
def unassessedOf (db : List Paper) : List Paper :=
  (db.filter (fun p => p.final_status = some "INCLUDED")).filter
    (fun p => p.quality_score = none)

/-- `QualityAgent.run`: early return when nothing is unassessed, otherwise
one remote call per paper (failures degrade inside `assess_paper`),
results collected in completion order `σ` and committed single-threaded
after all workers finish. -/
def qualityRun (db : List Paper) (resps : List (Option QualityResp))
    (σ : List ℕ) : List Paper :=
  let unassessed := unassessedOf db
  if unassessed.isEmpty then db
  else
    let results := (unassessed.zip resps).map (fun pr => assessPaper pr.1 pr.2)
    (σ.filterMap (fun i => results.get? i)).foldl qualityCommit db

/-! ## Relevance scoring (src/agents/relevance_agent.py) -/

/-- `RelevanceAgent._STOPWORDS`. -/
def STOPWORDS : List String :=
  ["the", "a", "an", "and", "or", "of", "in", "to", "for",
   "is", "are", "was", "were", "be", "been", "being",
   "that", "this", "which", "with", "by", "from", "as"]

/-- A regex `\w` word character (ASCII model). -/
def isWordChar (c : Char) : Bool :=
  c.isAlphanum || c = '_'

/-- Helper for `pySplit`: accumulate the current word (reversed). -/
def pySplitGo : List Char → List Char → List String
  | [], cur => if cur.isEmpty then [] else [String.mk cur.reverse]
  | c :: cs, cur =>
    if c.isWhitespace then
      if cur.isEmpty then pySplitGo cs []
      else String.mk cur.reverse :: pySplitGo cs []
    else pySplitGo cs (c :: cur)

/-- Python `str.split()` with no argument: split on whitespace runs,
discarding empty pieces. -/
def pySplit (l : List Char) : List String :=
  pySplitGo l []

/-- `RelevanceAgent._tokenise`: lower-case, drop characters that are
neither word nor whitespace (`re.sub(r"[^\w\s]", "", ·)`), split on
whitespace, and keep the set of words that are neither stop-words nor of
length ≤ 2. -/
def tokenise (text : String) : Finset String :=
  let cleaned := (text.toList.map Char.toLower).filter
    (fun c => isWordChar c || c.isWhitespace)
  ((pySplit cleaned).filter
    (fun w => decide (w ∉ STOPWORDS) && decide (2 < w.length))).toFinset

/-- Python's `round` to an integer: round half to even. -/
def roundHalfEven (q : ℚ) : ℤ :=
  let n := ⌊q⌋
  let r := q - (n : ℚ)
  if r < 1 / 2 then n
  else if 1 / 2 < r then n + 1
  else if Even n then n else n + 1

/-- Python's `round(x, 1)` on the rational idealisation of floats. -/
def pyRound1 (q : ℚ) : ℚ :=
  (roundHalfEven (q * 10) : ℚ) / 10

/-- The embedding-path score of `RelevanceAgent.run`:
`round(max(0.0, min(100.0, (sim - 0.3) / 0.7 * 100)), 1)` where `sim` is
the cosine similarity of the unit-normalised vectors (a float, modelled
as an arbitrary rational). -/
def cosineRelevanceScore (sim : ℚ) : ℚ :=
  pyRound1 (max 0 (min 100 ((sim - 3 / 10) / (7 / 10) * 100)))

/-- Python string interpolation of a nullable column:
`f"...{None}..."` renders as the literal `None`. -/
def pyStrOpt : Option String → String
  | none => "None"
  | some s => s

/-- The text `_keyword_score` scores: `f"{p.get('title', '')} {p.get('abstract', '')}"`. -/
def keywordText (p : Paper) : String :=
  p.title ++ " " ++ pyStrOpt p.abstract

/-- The keyword-fallback score of `RelevanceAgent._keyword_score`:
`overlap = len(rq_words & paper_words) / max(len(rq_words), 1)`,
`score = round(min(100.0, overlap * 150), 1)`. -/
def keywordScore (rq text : String) : ℚ :=
  let rqW := tokenise rq
  let pW := tokenise text
  let overlap : ℚ := ((rqW ∩ pW).card : ℚ) / (max rqW.card 1 : ℚ)
  pyRound1 (min 100 (overlap * 150))

/-- `RelevanceAgent._keyword_score` over the included papers. -/
def relevanceKeywordRun (db : List Paper) (rq : String) : List Paper :=
  (db.filter (fun p => p.final_status = some "INCLUDED")).foldl
    (fun acc p =>
      updatePaper acc p.id (fun q =>
        { q with relevance_score := some (keywordScore rq (keywordText p)) }))
    db

/-- The embedding path of `RelevanceAgent.run` over the included papers:
`simOf` is the oracle giving the cosine similarity of a paper's stored
embedding with the research-question embedding (`none` when the paper has
no stored embedding, in which case it is skipped). -/
def relevanceCosineRun (db : List Paper) (simOf : String → Option ℚ) : List Paper :=
  (db.filter (fun p => p.final_status = some "INCLUDED")).foldl
    (fun acc p =>
      match simOf p.id with
      | none => acc
      | some s =>
        updatePaper acc p.id (fun q =>
          { q with relevance_score := some (cosineRelevanceScore s) }))
    db

/-! ## Snowball expansion controller (src/agents/snowballing_agent.py) -/

/-- `config.DEFAULT_MIN_YIELD_RATE` (src/config.py); the agent reads it
directly, it is not configurable per run. -/
def DEFAULT_MIN_YIELD_RATE : ℚ := 2 / 100

/-- The per-round external inputs of the controller: the concatenated
candidate lists returned by the citation lookups (references and citing
papers, already an oracle because they are remote calls), and the
screening oracle for the round's `run_pass1` call. -/
structure RoundOracle where
  fetched : List Paper := []
  resps : List (Option (List DecisionEntry)) := []
  completionOrder : List ℕ := []

/-- The candidate deduplication of `SnowballingAgent.run`: keep the first
occurrence of each id not already known in the store, tagging it with the
round's provenance marker. -/
def snowDedup (known : List String) (roundNum : ℕ) (cands : List Paper) : List Paper :=
  (cands.foldl
    (fun acc c =>
      if c.id ∉ acc.2 ∧ c.id ∉ known then
        (acc.1 ++ [{ c with found_via := "snowball_round_" ++ toString roundNum }],
         acc.2 ++ [c.id])
      else acc)
    (([], []) : List Paper × List String)).1

/-- The round loop of `SnowballingAgent.run`.  `fuel` is the number of
rounds the `range(1, max_rounds + 1)` loop still allows; the result is
the store, `total_new_included`, and the list of performed rounds (a
round counts as performed once it passes the included-set check and
starts collecting candidates). -/
def snowballGo (oracles : ℕ → RoundOracle) (targetSize : ℕ) :
    ℕ → ℕ → List Paper → ℤ → List ℕ → List Paper × ℤ × List ℕ
  | 0, _, db, total, rounds => (db, total, rounds)
  | fuel + 1, roundNum, db, total, rounds =>
    if (db.filter (fun p => p.final_status = some "INCLUDED")).isEmpty then
      (db, total, rounds)
    else
      let o := oracles roundNum
      let uniq := snowDedup (db.map (fun p => p.id)) roundNum o.fetched
      if uniq.isEmpty then (db, total, rounds ++ [roundNum])
      else
        let db1 := (upsertPapers db uniq).1
        let pre := countIncluded db1
        let db2 := runPass1 db1 o.resps o.completionOrder
        let post := countIncluded db2
        let newInc : ℤ := (post : ℤ) - (pre : ℤ)
        let yieldRate : ℚ := (newInc : ℚ) / (uniq.length : ℚ)
        if newInc = 0 ∨ yieldRate < DEFAULT_MIN_YIELD_RATE ∨
            (post : ℚ) ≥ (targetSize : ℚ) * (3 / 2) then
          (db2, total + newInc, rounds ++ [roundNum])
        else
          snowballGo oracles targetSize fuel (roundNum + 1) db2 (total + newInc)
            (rounds ++ [roundNum])

/-- `SnowballingAgent.run`: up to `max_rounds` rounds starting from round
number 1 with a zero running total. -/
def snowballRun (maxRounds targetSize : ℕ) (oracles : ℕ → RoundOracle)
    (db : List Paper) : List Paper × ℤ × List ℕ :=
  snowballGo oracles targetSize maxRounds 1 db 0 []

/-! ## Row-level view of the keyed-update commit loops

Every commit loop of the pipeline is a fold of `update_paper` calls, and
`update_paper` acts row-wise, so each loop equals a `List.map` of a
per-row function.  The following per-row functions and `rowFold` make
that explicit; `…EffKey` gives the id a loop iteration actually writes
(`none` when the iteration writes nothing). -/

/-- Per-row effect of one commit-loop iteration of `run_pass1`. -/
def commitRow (d : DecisionEntry) (p : Paper) : Paper :=
  if d.id = "" then p
  else if p.id = d.id then
    let dec := coerceDecision d.decision
    let p1 := { p with screening_pass1 := some dec,
                       screening_pass1_reason := d.reason.getD "",
                       screening_pass1_confidence := some (d.confidence.getD 50) }
    if dec = "EXCLUDE" then { p1 with final_status := some "EXCLUDED" } else p1
  else p

/-- Per-row effect of one iteration of `apply_human_decisions` for the
snapshot paper `sp`. -/
def humanRow (sp : Paper) (p : Paper) : Paper :=
  if sp.human_decision = some "INCLUDE" then
    if p.id = sp.id then
      { p with screening_pass1 := some "INCLUDE", final_status := none }
    else p
  else if sp.human_decision = some "EXCLUDE" then
    if p.id = sp.id then { p with final_status := some "EXCLUDED" } else p
  else p

/-- Per-row effect of one iteration of `finalize_included` for the
snapshot paper `sp`. -/
def finalRow (sp : Paper) (p : Paper) : Paper :=
  if sp.screening_pass1 = some "INCLUDE" ∧ sp.final_status = none then
    if p.id = sp.id then { p with final_status := some "INCLUDED" } else p
  else p

/-- Per-row effect of one iteration of the quality commit loop. -/
def qualityRow (res : String × ℚ × String × String) (p : Paper) : Paper :=
  if p.id = res.1 then
    { p with quality_score := some res.2.1,
             quality_notes := some res.2.2.1,
             quality_flag := some res.2.2.2 }
  else p

/-- Fold a list of per-row effects over one row. -/
def rowFold (R : α → Paper → Paper) (items : List α) (p : Paper) : Paper :=
  items.foldl (fun q a => R a q) p

/-- The id a `run_pass1` commit iteration writes. -/
def commitEffKey (d : DecisionEntry) : Option String :=
  if d.id = "" then none else some d.id

/-- The id an `apply_human_decisions` iteration writes. -/
def humanEffKey (sp : Paper) : Option String :=
  if sp.human_decision = some "INCLUDE" ∨ sp.human_decision = some "EXCLUDE" then
    some sp.id
  else none

/-- The id a `finalize_included` iteration writes. -/
def finalEffKey (sp : Paper) : Option String :=
  if sp.screening_pass1 = some "INCLUDE" ∧ sp.final_status = none then
    some sp.id
  else none

/-- Per-row effect of one `_keyword_score` loop iteration. -/
def keywordRow (rq : String) (sp : Paper) (p : Paper) : Paper :=
  if p.id = sp.id then
    { p with relevance_score := some (keywordScore rq (keywordText sp)) }
  else p

/-- Per-row effect of one embedding-path scoring iteration. -/
def cosineRow (simOf : String → Option ℚ) (sp : Paper) (p : Paper) : Paper :=
  match simOf sp.id with
  | none => p
  | some s =>
    if p.id = sp.id then
      { p with relevance_score := some (cosineRelevanceScore s) }
    else p

/-! ### Basic lemmas about the dedup fold -/

theorem dedupStep_drop_iff (s : DedupState) (p : Paper) :
    (dedupStep s p).unique = s.unique ↔ dropCond p s.seenDois s.seenTitles := by
  unfold dedupStep dropCond
  by_cases h1 : normDoi p ≠ "" ∧ normDoi p ∈ s.seenDois
  · simp [h1]
  · by_cases h2 : titleKey p.title ∈ s.seenTitles
    · simp [h1, h2]
    · rw [if_neg h1, if_neg h2]
      simp only [h1, h2, or_self, iff_false]
      intro h
      have := congrArg List.length h
      simp at this

theorem dedupStep_keep (s : DedupState) (p : Paper)
    (h : ¬ dropCond p s.seenDois s.seenTitles) :
    dedupStep s p =
      { unique := s.unique ++ [p],
        seenDois := if normDoi p ≠ "" then s.seenDois ++ [normDoi p] else s.seenDois,
        seenTitles := s.seenTitles ++ [titleKey p.title] } := by
  unfold dedupStep
  unfold dropCond at h
  push_neg at h
  rcases h with ⟨h1, h2⟩
  by_cases hd : normDoi p = ""
  · simp [hd, h2]
  · simp [hd, h1 hd, h2]

theorem dedupStep_dropped (s : DedupState) (p : Paper)
    (h : dropCond p s.seenDois s.seenTitles) :
    dedupStep s p = s := by
  unfold dedupStep
  unfold dropCond at h
  rcases h with ⟨h1, h2⟩ | h
  · simp [h1, h2]
  · by_cases h1 : normDoi p ≠ "" ∧ normDoi p ∈ s.seenDois
    · simp [h1]
    · simp [h1, h]

theorem deduplicate_take_succ (papers : List Paper) (ds ts : List String)
    (i : ℕ) (h : i < papers.length) :
    deduplicate (papers.take (i + 1)) ds ts =
      dedupStep (deduplicate (papers.take i) ds ts) (papers.getD i default) := by
  unfold deduplicate
  rw [List.take_succ]
  have hget : papers[i]? = some (papers.getD i default) := by
    rw [List.getD_eq_getElem _ _ h, List.getElem?_eq_getElem h]
  rw [hget]
  simp [List.foldl_append]

theorem dedupStep_inv (s : DedupState) (p : Paper) (h : DedupInv s) :
    DedupInv (dedupStep s p) := by
  by_cases hc : dropCond p s.seenDois s.seenTitles
  · rw [dedupStep_dropped s p hc]; exact h
  · rw [dedupStep_keep s p hc]
    obtain ⟨h1, h2, h3, h4⟩ := h
    have hdoiSub : s.seenDois ⊆
        (if normDoi p ≠ "" then s.seenDois ++ [normDoi p] else s.seenDois) := by
      by_cases hd : normDoi p = "" <;> simp [hd, List.subset_append_left]
    refine ⟨?_, ?_, ?_, ?_⟩
    · intro q hq hne
      rcases List.mem_append.mp hq with hq | hq
      · exact hdoiSub (h1 q hq hne)
      · have : q = p := by simpa using hq
        subst this
        simp [hne]
    · intro q hq
      rcases List.mem_append.mp hq with hq | hq
      · exact List.mem_append_left _ (h2 q hq)
      · have : q = p := by simpa using hq
        subst this
        simp
    · rw [List.pairwise_append]
      refine ⟨h3, List.pairwise_singleton _ _, ?_⟩
      intro a ha b hb
      have : b = p := by simpa using hb
      subst this
      by_cases hae : normDoi a = ""
      · exact Or.inr hae
      · left
        intro heq
        apply hc
        exact Or.inl ⟨heq ▸ hae, heq ▸ h1 a ha hae⟩
    · rw [List.pairwise_append]
      refine ⟨h4, List.pairwise_singleton _ _, ?_⟩
      intro a ha b hb
      have : b = p := by simpa using hb
      subst this
      intro heq
      exact hc (Or.inr (heq ▸ h2 a ha))

theorem dedup_foldl_inv (papers : List Paper) (s : DedupState) (h : DedupInv s) :
    DedupInv (papers.foldl dedupStep s) := by
  induction papers generalizing s with
  | nil => exact h
  | cons p rest ih => exact ih _ (dedupStep_inv s p h)

theorem deduplicate_inv (papers : List Paper) (ds ts : List String) :
    DedupInv (deduplicate papers ds ts) := by
  apply dedup_foldl_inv
  refine ⟨?_, ?_, ?_, ?_⟩ <;> simp

/-- A lower-cased non-alphanumeric character is not kept by the title-key
filter: `Char.toLower` only moves `A`–`Z`, so a character outside the
alphanumeric range stays outside `[a-z0-9]`. -/
theorem isLowerAlnum_toLower_of_not_alnum {c : Char} (h : c.isAlphanum = false) :
    isLowerAlnum c.toLower = false := by
  have hv : c.val.toBitVec.toNat = c.toNat := rfl
  simp only [Char.isAlphanum, Char.isAlpha, Char.isUpper, Char.isLower, Char.isDigit,
    Bool.or_eq_false_iff, Bool.and_eq_false_iff, decide_eq_false_iff_not, not_le,
    Char.lt_def, Char.le_def, UInt32.lt_def, UInt32.le_def, BitVec.lt_def, BitVec.le_def,
    hv, show (UInt32.toBitVec 65).toNat = 65 from rfl,
    show (UInt32.toBitVec 90).toNat = 90 from rfl,
    show (UInt32.toBitVec 97).toNat = 97 from rfl,
    show (UInt32.toBitVec 122).toNat = 122 from rfl,
    show (UInt32.toBitVec 48).toNat = 48 from rfl,
    show (UInt32.toBitVec 57).toNat = 57 from rfl] at h
  have hcond : ¬ (c.toNat ≥ 65 ∧ c.toNat ≤ 90) := by omega
  have hlower : c.toLower = c := by
    unfold Char.toLower
    show (if c.toNat ≥ 65 ∧ c.toNat ≤ 90 then Char.ofNat (c.toNat + 32) else c) = c
    rw [if_neg hcond]
  rw [hlower]
  simp only [isLowerAlnum, Bool.or_eq_false_iff, Bool.and_eq_false_iff,
    decide_eq_false_iff_not, not_le,
    Char.lt_def, Char.le_def, UInt32.lt_def, UInt32.le_def, BitVec.lt_def, BitVec.le_def,
    hv, show 'a'.val.toBitVec.toNat = 97 from rfl,
    show 'z'.val.toBitVec.toNat = 122 from rfl,
    show '0'.val.toBitVec.toNat = 48 from rfl,
    show '9'.val.toBitVec.toNat = 57 from rfl]
  omega

/-- A title all of whose characters are non-alphanumeric has the empty
title key. -/
theorem titleKey_eq_empty_of_not_alnum (t : String)
    (h : ∀ c ∈ t.toList, c.isAlphanum = false) : titleKey t = "" := by
  unfold titleKey
  have hfil : (t.toList.map Char.toLower).filter isLowerAlnum = [] := by
    rw [List.filter_eq_nil_iff]
    intro c hc
    rcases List.mem_map.mp hc with ⟨c0, hc0, rfl⟩
    simp [isLowerAlnum_toLower_of_not_alnum (h c0 hc0)]
  rw [hfil]
  rfl

/-- In a list whose elements are pairwise distinct under `f`, at most one
element can have `f`-value `v`. -/
theorem countP_le_one_of_pairwise {α β : Type} [DecidableEq β] (f : α → β) (v : β)
    (l : List α) (h : l.Pairwise fun a b => f a ≠ f b) :
    l.countP (fun a => f a = v) ≤ 1 := by
  induction l with
  | nil => simp
  | cons a rest ih =>
    rw [List.pairwise_cons] at h
    rw [List.countP_cons]
    by_cases hv : f a = v
    · have hz : rest.countP (fun a => f a = v) = 0 := by
        rw [List.countP_eq_zero]
        intro b hb
        simp only [decide_eq_true_eq]
        intro hbv
        exact h.1 b hb (hv.trans hbv.symm)
      simp [hz, hv]
    · simpa [hv] using ih h.2

/-- Scenario shared by the spec and claim C4: documents sharing one DOI
spread over two query result sets of one search stage.  The first one
encountered is kept and stored; the later ones are dropped. -/
theorem searchStage_shared_doi (d1 d2 d3 : Paper)
    (h12 : normDoi d1 = normDoi d2) (h13 : normDoi d1 = normDoi d3)
    (hne : normDoi d1 ≠ "") :
    searchStageStored [[d1, d2], [d3]] = [insertRow d1] := by
  have hd1 : ¬ dropCond d1 [] [] := by simp [dropCond]
  have hs1 : dedupStep ⟨[], [], []⟩ d1 =
      ⟨[d1], [normDoi d1], [titleKey d1.title]⟩ := by
    rw [dedupStep_keep _ _ hd1]
    simp [hne]
  have hdrop2 : dropCond d2 [normDoi d1] [titleKey d1.title] := by
    left
    rw [← h12]
    exact ⟨hne, by simp⟩
  have hdrop3 : dropCond d3 [normDoi d1] [titleKey d1.title] := by
    left
    rw [← h13]
    exact ⟨hne, by simp⟩
  have e1 : deduplicate [d1, d2] [] [] =
      ⟨[d1], [normDoi d1], [titleKey d1.title]⟩ := by
    show dedupStep (dedupStep ⟨[], [], []⟩ d1) d2 = _
    rw [hs1, dedupStep_dropped _ _ hdrop2]
  have e2 : deduplicate [d3] [normDoi d1] [titleKey d1.title] =
      ⟨[], [normDoi d1], [titleKey d1.title]⟩ := by
    show dedupStep ⟨[], [normDoi d1], [titleKey d1.title]⟩ d3 = _
    rw [dedupStep_dropped _ _ hdrop3]
  unfold searchStageStored
  simp only [List.foldl]
  rw [e1]
  simp only []
  rw [e2]
  rfl

/-! ### Lemmas about `upsertPapers` -/

theorem upsertPapers_append (ps : List Paper) (db : List Paper) :
    ∃ tail, (upsertPapers db ps).1 = db ++ tail := by
  induction ps generalizing db with
  | nil => exact ⟨[], by simp [upsertPapers]⟩
  | cons p rest ih =>
    unfold upsertPapers
    by_cases h : db.any (fun q => q.id = p.id)
    · rw [if_pos h]
      exact ih db
    · rw [if_neg h]
      obtain ⟨tail, htail⟩ := ih (db ++ [insertRow p])
      exact ⟨insertRow p :: tail, by simp [htail]⟩

theorem upsertPapers_mem_ids (ps : List Paper) (db : List Paper) (p : Paper)
    (hp : p ∈ ps) : ∃ q ∈ (upsertPapers db ps).1, q.id = p.id := by
  induction ps generalizing db with
  | nil => cases hp
  | cons p0 rest ih =>
    unfold upsertPapers
    by_cases h : db.any (fun q => q.id = p0.id)
    · rw [if_pos h]
      rcases List.mem_cons.mp hp with rfl | hp'
      · rcases List.any_eq_true.mp h with ⟨q, hq, hq'⟩
        obtain ⟨tail, htail⟩ := upsertPapers_append rest db
        exact ⟨q, by rw [htail]; exact List.mem_append_left _ hq,
          (decide_eq_true_eq.mp hq')⟩
      · exact ih db hp'
    · rw [if_neg h]
      rcases List.mem_cons.mp hp with rfl | hp'
      · obtain ⟨tail, htail⟩ := upsertPapers_append rest (db ++ [insertRow p])
        refine ⟨insertRow p, ?_, rfl⟩
        simp only [htail]
        exact List.mem_append_left _ (by simp)
      · simpa using ih (db ++ [insertRow p0]) hp'

theorem upsertPapers_noop (ps : List Paper) (db : List Paper)
    (h : ∀ p ∈ ps, ∃ q ∈ db, q.id = p.id) : upsertPapers db ps = (db, 0) := by
  induction ps with
  | nil => rfl
  | cons p rest ih =>
    unfold upsertPapers
    have hany : db.any (fun q => q.id = p.id) := by
      rcases h p (by simp) with ⟨q, hq, hq'⟩
      exact List.any_eq_true.mpr ⟨q, hq, decide_eq_true hq'⟩
    rw [if_pos hany]
    exact ih (fun p' hp' => h p' (by simp [hp']))

/-! ### Claim C4 — deduplication drop condition and cross-query DOI dedup -/

/-- **C4**.  A document is dropped by `_deduplicate` exactly when its
non-empty normalised DOI or its title key is already seen; a kept
document extends both seen-sets (the DOI set only for a non-empty DOI,
which is all the claim's "added to both" can mean); consequently no two
kept documents share a non-empty DOI, and in the spec's scenario of
documents sharing one DOI across two query result sets of a search stage
exactly one record is stored, namely the first encountered. -/
theorem c4_dedup_drop_iff_and_doi_unique :
    (∀ (papers : List Paper) (ds ts : List String) (i : ℕ), i < papers.length →
      ((deduplicate (papers.take (i + 1)) ds ts).unique =
            (deduplicate (papers.take i) ds ts).unique ↔
          dropCond (papers.getD i default)
            (deduplicate (papers.take i) ds ts).seenDois
            (deduplicate (papers.take i) ds ts).seenTitles) ∧
      (¬ dropCond (papers.getD i default)
            (deduplicate (papers.take i) ds ts).seenDois
            (deduplicate (papers.take i) ds ts).seenTitles →
        deduplicate (papers.take (i + 1)) ds ts =
          { unique := (deduplicate (papers.take i) ds ts).unique ++ [papers.getD i default],
            seenDois :=
              if normDoi (papers.getD i default) ≠ "" then
                (deduplicate (papers.take i) ds ts).seenDois ++ [normDoi (papers.getD i default)]
              else (deduplicate (papers.take i) ds ts).seenDois,
            seenTitles := (deduplicate (papers.take i) ds ts).seenTitles ++
              [titleKey (papers.getD i default).title] })) ∧
    (∀ (papers : List Paper) (ds ts : List String),
      (deduplicate papers ds ts).unique.Pairwise
        (fun p q => normDoi p ≠ normDoi q ∨ normDoi p = "")) ∧
    (∀ d1 d2 d3 : Paper, normDoi d1 = normDoi d2 → normDoi d1 = normDoi d3 →
      normDoi d1 ≠ "" → searchStageStored [[d1, d2], [d3]] = [insertRow d1]) := by
  refine ⟨?_, ?_, ?_⟩
  · intro papers ds ts i hi
    rw [deduplicate_take_succ papers ds ts i hi]
    exact ⟨dedupStep_drop_iff _ _, fun h => dedupStep_keep _ _ h⟩
  · intro papers ds ts
    exact (deduplicate_inv papers ds ts).2.2.1
  · exact searchStage_shared_doi

/-- Witness for C4 on concrete inputs: `"10.1/A"` and `"10.1/a"`
normalise to one DOI, the second document is dropped, and across two
query result sets exactly the first of three DOI-sharing records is
stored. -/
theorem c4_witness :
    (deduplicate (([{ id := "a", doi := some "10.1/A", title := "Alpha" },
        { id := "b", doi := some "10.1/a", title := "Beta" }] : List Paper).take 2) [] []).unique =
      (deduplicate (([{ id := "a", doi := some "10.1/A", title := "Alpha" },
        { id := "b", doi := some "10.1/a", title := "Beta" }] : List Paper).take 1) [] []).unique ∧
    searchStageStored
        [[{ id := "a", doi := some "10.1/A", title := "Alpha" },
          { id := "b", doi := some "10.1/a", title := "Beta" }],
         [{ id := "c", doi := some " 10.1/a ", title := "Gamma" }]] =
      [insertRow { id := "a", doi := some "10.1/A", title := "Alpha" }] := by
  constructor
  · exact ((c4_dedup_drop_iff_and_doi_unique.1 _ [] [] 1 (by norm_num)).1).mpr (by decide)
  · exact c4_dedup_drop_iff_and_doi_unique.2.2
      { id := "a", doi := some "10.1/A", title := "Alpha" }
      { id := "b", doi := some "10.1/a", title := "Beta" }
      { id := "c", doi := some " 10.1/a ", title := "Gamma" }
      (by decide) (by decide) (by decide)

/-! ### Claim C10 — title-key collisions -/

/-- **C10**.  A seen title key alone drops a document even when its DOI is
non-empty and unseen; a title consisting only of non-alphanumeric
characters has the empty title key; and the kept documents of any
`_deduplicate` call have pairwise distinct title keys, so at most one
document with an all-non-alphanumeric title survives, regardless of its
DOI. -/
theorem c10_titleKey_collision :
    (∀ (s : DedupState) (p : Paper), normDoi p ≠ "" → normDoi p ∉ s.seenDois →
      titleKey p.title ∈ s.seenTitles → dedupStep s p = s) ∧
    (∀ t : String, (∀ c ∈ t.toList, c.isAlphanum = false) → titleKey t = "") ∧
    (∀ (papers : List Paper) (ds ts : List String),
      (deduplicate papers ds ts).unique.Pairwise
        (fun p q => titleKey p.title ≠ titleKey q.title) ∧
      (deduplicate papers ds ts).unique.countP
        (fun p => titleKey p.title = "") ≤ 1) := by
  refine ⟨?_, titleKey_eq_empty_of_not_alnum, ?_⟩
  · intro s p _ _ ht
    exact dedupStep_dropped s p (Or.inr ht)
  · intro papers ds ts
    have hpw := (deduplicate_inv papers ds ts).2.2.2
    exact ⟨hpw, countP_le_one_of_pairwise (fun q : Paper => titleKey q.title) "" _ hpw⟩

/-- Witness for C10: a document with a fresh non-empty DOI but a colliding
title key is dropped, `"?!*"` has the empty title key, and of two
punctuation-only-titled documents with distinct DOIs only one survives. -/
theorem c10_witness :
    dedupStep ⟨[], ["other"], ["alpha"]⟩ { id := "b", doi := some "10.2/b", title := "Alpha!" } =
      ⟨[], ["other"], ["alpha"]⟩ ∧
    titleKey "?!*" = "" ∧
    (deduplicate [{ id := "a", doi := some "10.1/a", title := "???" },
        { id := "b", doi := some "10.2/b", title := "!!!" }] [] []).unique.countP
      (fun p => titleKey p.title = "") ≤ 1 := by
  refine ⟨?_, ?_, ?_⟩
  · exact c10_titleKey_collision.1 ⟨[], ["other"], ["alpha"]⟩
      { id := "b", doi := some "10.2/b", title := "Alpha!" }
      (by decide) (by decide) (by decide)
  · exact c10_titleKey_collision.2.1 "?!*" (by decide)
  · exact (c10_titleKey_collision.2.2 _ [] []).2

/-! ### Claim C5 — idempotent storage insertion -/

/-- **C5**.  `upsert_papers` is idempotent by primary key: re-inserting a
document set leaves the store (hence its size) unchanged and inserts
nothing; an upsert only ever appends to the existing rows (never
overwrites them); and inserting a single document whose id is already
present is a no-op counted as zero. -/
theorem c5_upsert_idempotent :
    (∀ (db ps : List Paper),
      upsertPapers (upsertPapers db ps).1 ps = ((upsertPapers db ps).1, 0)) ∧
    (∀ (db ps : List Paper), ∃ tail, (upsertPapers db ps).1 = db ++ tail) ∧
    (∀ (db : List Paper) (p : Paper), (∃ q ∈ db, q.id = p.id) →
      upsertPapers db [p] = (db, 0)) := by
  refine ⟨?_, fun db ps => upsertPapers_append ps db, ?_⟩
  · intro db ps
    exact upsertPapers_noop ps _ (fun p hp => upsertPapers_mem_ids ps db p hp)
  · intro db p h
    exact upsertPapers_noop [p] db (by simpa using h)

/-- Witness for C5: inserting `{id := "a"}` into a store already holding a
row with id `"a"` is a no-op with zero count. -/
theorem c5_witness :
    upsertPapers [{ id := "a", title := "Stored", doi := some "10.1/a" }]
      [{ id := "a", title := "Incoming" }] =
      ([{ id := "a", title := "Stored", doi := some "10.1/a" }], 0) := by
  exact c5_upsert_idempotent.2.2 _ { id := "a", title := "Incoming" }
    ⟨{ id := "a", title := "Stored", doi := some "10.1/a" }, by simp, rfl⟩

/-! ### The commit loops act row-wise -/

theorem foldl_eq_map_rowFold {α : Type} (G : α → List Paper → List Paper)
    (R : α → Paper → Paper) (hG : ∀ a acc, G a acc = acc.map (R a)) :
    ∀ (items : List α) (db : List Paper),
      items.foldl (fun acc a => G a acc) db = db.map (rowFold R items) := by
  intro items
  induction items with
  | nil =>
    intro db
    rw [show rowFold R [] = id from rfl, List.map_id]
    rfl
  | cons a items ih =>
    intro db
    have : List.foldl (fun acc a => G a acc) db (a :: items) =
        List.foldl (fun acc a => G a acc) (G a db) items := rfl
    rw [this, ih (G a db), hG a db, List.map_map]
    rfl

theorem rowFold_id {α : Type} (R : α → Paper → Paper)
    (hid : ∀ a p, (R a p).id = p.id) (items : List α) (p : Paper) :
    (rowFold R items p).id = p.id := by
  induction items generalizing p with
  | nil => rfl
  | cons a items ih =>
    show (rowFold R items (R a p)).id = p.id
    rw [ih (R a p), hid a p]

theorem rowFold_no_hit {α : Type} (R : α → Paper → Paper) (eff : α → Option String)
    (hmiss : ∀ a p, eff a ≠ some p.id → R a p = p) (items : List α) (p : Paper)
    (h : ∀ a ∈ items, eff a ≠ some p.id) : rowFold R items p = p := by
  induction items with
  | nil => rfl
  | cons a items ih =>
    show rowFold R items (R a p) = p
    rw [hmiss a p (h a (by simp)), ih (fun b hb => h b (by simp [hb]))]

theorem rowFold_single_hit {α : Type} (R : α → Paper → Paper) (eff : α → Option String)
    (hid : ∀ a p, (R a p).id = p.id)
    (hmiss : ∀ a p, eff a ≠ some p.id → R a p = p)
    (items : List α) (p : Paper) (a : α) (ha : a ∈ items)
    (heff : eff a = some p.id) (hnd : (items.filterMap eff).Nodup) :
    rowFold R items p = R a p := by
  obtain ⟨l1, l2, rfl⟩ := List.append_of_mem ha
  rw [List.filterMap_append] at hnd
  have hcons : List.filterMap eff (a :: l2) = p.id :: List.filterMap eff l2 := by
    simp [List.filterMap_cons, heff]
  rw [hcons, List.nodup_append] at hnd
  have h1 : ∀ b ∈ l1, eff b ≠ some p.id := by
    intro b hb hbe
    exact (hnd.2.2 (List.mem_filterMap.mpr ⟨b, hb, hbe⟩) (by simp)).elim
  have h2 : ∀ b ∈ l2, eff b ≠ some p.id := by
    intro b hb hbe
    exact ((List.nodup_cons.mp hnd.2.1).1 (List.mem_filterMap.mpr ⟨b, hb, hbe⟩)).elim
  unfold rowFold
  rw [List.foldl_append]
  have e1 : List.foldl (fun q b => R b q) p l1 = p := rowFold_no_hit R eff hmiss l1 p h1
  rw [e1]
  show rowFold R l2 (R a p) = R a p
  exact rowFold_no_hit R eff hmiss l2 (R a p)
    (fun b hb => by rw [hid a p]; exact h2 b hb)

/-! ### Row functions: id preservation and miss behaviour -/

theorem commitRow_id (d : DecisionEntry) (p : Paper) : (commitRow d p).id = p.id := by
  unfold commitRow
  dsimp only
  split_ifs <;> rfl

theorem humanRow_id (sp : Paper) (p : Paper) : (humanRow sp p).id = p.id := by
  unfold humanRow
  split_ifs <;> rfl

theorem finalRow_id (sp : Paper) (p : Paper) : (finalRow sp p).id = p.id := by
  unfold finalRow
  split_ifs <;> rfl

theorem qualityRow_id (res : String × ℚ × String × String) (p : Paper) :
    (qualityRow res p).id = p.id := by
  unfold qualityRow
  split_ifs <;> rfl

theorem commitRow_miss (d : DecisionEntry) (p : Paper)
    (h : commitEffKey d ≠ some p.id) : commitRow d p = p := by
  unfold commitEffKey at h
  unfold commitRow
  by_cases hid : d.id = ""
  · rw [if_pos hid]
  · rw [if_neg hid]
    rw [if_neg hid] at h
    rw [if_neg (fun hp : p.id = d.id => h (by rw [hp]))]

theorem humanRow_miss (sp : Paper) (p : Paper)
    (h : humanEffKey sp ≠ some p.id) : humanRow sp p = p := by
  unfold humanEffKey at h
  unfold humanRow
  by_cases hI : sp.human_decision = some "INCLUDE"
  · rw [if_pos hI]
    rw [if_pos (Or.inl hI)] at h
    rw [if_neg (fun hp : p.id = sp.id => h (by rw [hp]))]
  · rw [if_neg hI]
    by_cases hE : sp.human_decision = some "EXCLUDE"
    · rw [if_pos hE]
      rw [if_pos (Or.inr hE)] at h
      rw [if_neg (fun hp : p.id = sp.id => h (by rw [hp]))]
    · rw [if_neg hE]

theorem finalRow_miss (sp : Paper) (p : Paper)
    (h : finalEffKey sp ≠ some p.id) : finalRow sp p = p := by
  unfold finalEffKey at h
  unfold finalRow
  by_cases hc : sp.screening_pass1 = some "INCLUDE" ∧ sp.final_status = none
  · rw [if_pos hc]
    rw [if_pos hc] at h
    rw [if_neg (fun hp : p.id = sp.id => h (by rw [hp]))]
  · rw [if_neg hc]

theorem qualityRow_miss (res : String × ℚ × String × String) (p : Paper)
    (h : p.id ≠ res.1) : qualityRow res p = p := by
  unfold qualityRow
  rw [if_neg h]

/-! ### The operations as row-wise maps -/

theorem commitDecision_eq_map (db : List Paper) (d : DecisionEntry) :
    commitDecision db d = db.map (commitRow d) := by
  unfold commitDecision commitRow updatePaper
  by_cases hid : d.id = ""
  · simp [hid]
  · rw [if_neg hid]
    by_cases hdec : coerceDecision d.decision = "EXCLUDE"
    · simp only [hdec, if_true, List.map_map]
      congr 1
      funext p
      by_cases hp : p.id = d.id <;> simp [hp, hid, hdec]
    · simp only [hdec, if_false]
      congr 1
      funext p
      by_cases hp : p.id = d.id <;> simp [hp, hid, hdec]

theorem allDecisions_of_no_unscreened (db : List Paper)
    (resps : List (Option (List DecisionEntry))) (σ : List ℕ)
    (h : unscreenedOf db = []) : allDecisions db resps σ = [] := by
  unfold allDecisions chunkList
  rw [h]
  show ((σ.map fun i =>
      (((chunkGo DEFAULT_SCREENING_BATCH_SIZE [] DEFAULT_SCREENING_BATCH_SIZE []).zip
        resps).map fun br => screenBatchResult br.1 br.2).getD i [])).flatten = []
  rw [show chunkGo DEFAULT_SCREENING_BATCH_SIZE []
      DEFAULT_SCREENING_BATCH_SIZE ([] : List Paper) = [] from rfl]
  simp

theorem runPass1_eq_map (db : List Paper) (resps : List (Option (List DecisionEntry)))
    (σ : List ℕ) :
    runPass1 db resps σ = db.map (rowFold commitRow (allDecisions db resps σ)) := by
  unfold runPass1
  by_cases h : (unscreenedOf db).isEmpty
  · rw [if_pos h, allDecisions_of_no_unscreened db resps σ (List.isEmpty_iff.mp h)]
    rw [show rowFold commitRow [] = id from rfl, List.map_id]
  · rw [if_neg h]
    exact foldl_eq_map_rowFold (fun d acc => commitDecision acc d) commitRow
      (fun d acc => commitDecision_eq_map acc d) _ db

theorem applyHuman_eq_map (db : List Paper) :
    applyHumanDecisions db =
      db.map (rowFold humanRow
        (db.filter (fun p => p.screening_pass1 = some "BORDERLINE"))) := by
  unfold applyHumanDecisions
  refine foldl_eq_map_rowFold _ humanRow ?_ _ db
  intro sp acc
  unfold humanRow updatePaper
  by_cases hI : sp.human_decision = some "INCLUDE"
  · simp [hI]
  · by_cases hE : sp.human_decision = some "EXCLUDE"
    · simp [hI, hE]
    · simp [hI, hE]

theorem finalize_eq_map (db : List Paper) :
    finalizeIncluded db = db.map (rowFold finalRow db) := by
  unfold finalizeIncluded
  refine foldl_eq_map_rowFold _ finalRow ?_ _ db
  intro sp acc
  unfold finalRow updatePaper
  by_cases hc : sp.screening_pass1 = some "INCLUDE" ∧ sp.final_status = none
  · simp [hc]
  · simp [hc]

theorem qualityRun_eq_map (db : List Paper) (resps : List (Option QualityResp))
    (σ : List ℕ) :
    qualityRun db resps σ =
      db.map (rowFold qualityRow
        (σ.filterMap (fun i =>
          (((unassessedOf db).zip resps).map (fun pr => assessPaper pr.1 pr.2)).get? i))) := by
  unfold qualityRun
  by_cases h : (unassessedOf db).isEmpty
  · rw [if_pos h]
    have h0 : unassessedOf db = [] := List.isEmpty_iff.mp h
    rw [h0]
    rw [List.filterMap_eq_nil_iff.mpr (fun i _ => by simp)]
    rw [show rowFold qualityRow [] = id from rfl, List.map_id]
  · rw [if_neg h]
    refine foldl_eq_map_rowFold _ qualityRow ?_ _ db
    intro res acc
    unfold qualityCommit qualityRow updatePaper
    rfl

/-! ### Id preservation and invariant preservation of the operations -/

theorem map_rowFold_ids {α : Type} (R : α → Paper → Paper)
    (hid : ∀ a p, (R a p).id = p.id) (items : List α) (db : List Paper) :
    (db.map (rowFold R items)).map (fun p => p.id) = db.map (fun p => p.id) := by
  rw [List.map_map]
  congr 1
  funext p
  exact rowFold_id R hid items p

theorem applyOp_ids (db : List Paper) (op : ScreenOp) :
    (applyOp db op).map (fun p => p.id) = db.map (fun p => p.id) := by
  cases op with
  | pass1 resps σ =>
    show (runPass1 db resps σ).map _ = _
    rw [runPass1_eq_map]
    exact map_rowFold_ids commitRow commitRow_id _ db
  | applyHuman =>
    show (applyHumanDecisions db).map _ = _
    rw [applyHuman_eq_map]
    exact map_rowFold_ids humanRow humanRow_id _ db
  | finalize =>
    show (finalizeIncluded db).map _ = _
    rw [finalize_eq_map]
    exact map_rowFold_ids finalRow finalRow_id _ db

theorem filterMap_commitEffKey_eq (A : List DecisionEntry) :
    A.filterMap commitEffKey = nonemptyIds A := by
  induction A with
  | nil => rfl
  | cons d A ih =>
    unfold nonemptyIds at ih ⊢
    by_cases h : d.id = "" <;>
      simp [List.filterMap_cons, commitEffKey, h, ih]

theorem nodup_filterMap_opt_id (l : List Paper) (eff : Paper → Option String)
    (heff : ∀ sp, eff sp = none ∨ eff sp = some sp.id)
    (h : (l.map (fun p => p.id)).Nodup) : (l.filterMap eff).Nodup := by
  induction l with
  | nil => simp
  | cons p l ih =>
    rw [List.map_cons, List.nodup_cons] at h
    rcases heff p with hp | hp
    · rw [List.filterMap_cons, hp]
      exact ih h.2
    · rw [List.filterMap_cons, hp]
      refine List.nodup_cons.mpr ⟨?_, ih h.2⟩
      intro hmem
      rcases List.mem_filterMap.mp hmem with ⟨q, hq, hqe⟩
      have : q.id = p.id := by
        rcases heff q with h' | h' <;> rw [h'] at hqe
        · cases hqe
        · exact Option.some_inj.mp hqe
      exact h.1 (this ▸ List.mem_map_of_mem (fun p => p.id) hq)

/-- Two store rows with the same id are the same row when ids are nodup. -/
theorem eq_of_mem_of_nodup_ids (db : List Paper) (hnd : (db.map (fun p => p.id)).Nodup)
    (u p : Paper) (hu : u ∈ db) (hp : p ∈ db) (h : u.id = p.id) : u = p :=
  List.inj_on_of_nodup_map hnd hu hp h

theorem commitRow_invRow (d : DecisionEntry) (p : Paper)
    (hid : p.id = d.id) (hne : d.id ≠ "")
    (hpun : p.screening_pass1 = none) (hrow : ScreenInvRow p) :
    ScreenInvRow (commitRow d p) := by
  unfold commitRow
  rw [if_neg hne, if_pos hid]
  dsimp only
  by_cases hdec : coerceDecision d.decision = "EXCLUDE"
  · rw [if_pos hdec]
    constructor
    · intro h
      simp at h
    · intro _
      left
      simp [hdec]
  · rw [if_neg hdec]
    constructor
    · intro h
      simp only at h
      have := hrow.1 h
      rw [hpun] at this
      cases this
    · intro h
      simp only at h
      rcases hrow.2 h with h' | h'
      · rw [hpun] at h'
        cases h'
      · exact Or.inr h'

theorem runPass1_inv (db : List Paper) (resps : List (Option (List DecisionEntry)))
    (σ : List ℕ) (hnd : (db.map (fun p => p.id)).Nodup)
    (hinv : ScreenInv db) (hwf : WFResponse db resps σ) :
    ScreenInv (runPass1 db resps σ) := by
  rw [runPass1_eq_map]
  intro q hq
  rcases List.mem_map.mp hq with ⟨p, hp, rfl⟩
  by_cases hhit : ∃ d ∈ allDecisions db resps σ, commitEffKey d = some p.id
  · obtain ⟨d, hdA, hdk⟩ := hhit
    have hnodup : ((allDecisions db resps σ).filterMap commitEffKey).Nodup := by
      rw [filterMap_commitEffKey_eq]
      exact hwf.2
    rw [rowFold_single_hit commitRow commitEffKey commitRow_id commitRow_miss
      _ p d hdA hdk hnodup]
    have hne : d.id ≠ "" := by
      intro h
      unfold commitEffKey at hdk
      rw [if_pos h] at hdk
      cases hdk
    have hdid : d.id = p.id := by
      unfold commitEffKey at hdk
      rw [if_neg hne] at hdk
      exact Option.some_inj.mp hdk
    have hpun : p.screening_pass1 = none := by
      rcases hwf.1 d hdA with h | h
      · exact absurd h hne
      · unfold unscreenedIds at h
        rcases List.mem_map.mp h with ⟨u, hu, hui⟩
        have humem := List.mem_filter.mp hu
        have hupass : u.screening_pass1 = none := by
          have := humem.2
          simpa using this
        have : u = p :=
          eq_of_mem_of_nodup_ids db hnd u p humem.1 hp (by rw [hui, ← hdid])
        rw [← this]
        exact hupass
    exact commitRow_invRow d p hdid.symm hne hpun (hinv p hp)
  · push_neg at hhit
    rw [rowFold_no_hit commitRow commitEffKey commitRow_miss _ p hhit]
    exact hinv p hp

theorem applyHuman_inv (db : List Paper) (hnd : (db.map (fun p => p.id)).Nodup)
    (hinv : ScreenInv db) : ScreenInv (applyHumanDecisions db) := by
  rw [applyHuman_eq_map]
  intro q hq
  rcases List.mem_map.mp hq with ⟨p, hp, rfl⟩
  set B := db.filter (fun p => p.screening_pass1 = some "BORDERLINE") with hB
  by_cases hhit : ∃ sp ∈ B, humanEffKey sp = some p.id
  · obtain ⟨sp, hspB, hspk⟩ := hhit
    have hBnd : (B.map (fun p => p.id)).Nodup :=
      ((List.filter_sublist db).map (fun p => p.id)).nodup hnd
    have hnodup : (B.filterMap humanEffKey).Nodup := by
      refine nodup_filterMap_opt_id B humanEffKey ?_ hBnd
      intro q'
      unfold humanEffKey
      by_cases h : q'.human_decision = some "INCLUDE" ∨ q'.human_decision = some "EXCLUDE" <;>
        simp [h]
    rw [rowFold_single_hit humanRow humanEffKey humanRow_id humanRow_miss
      _ p sp hspB hspk hnodup]
    have hspdb := List.mem_filter.mp hspB
    have hcase : sp.human_decision = some "INCLUDE" ∨ sp.human_decision = some "EXCLUDE" := by
      by_contra h
      unfold humanEffKey at hspk
      rw [if_neg h] at hspk
      cases hspk
    have hspid : sp.id = p.id := by
      unfold humanEffKey at hspk
      rw [if_pos hcase] at hspk
      exact Option.some_inj.mp hspk
    have hsp_eq : sp = p := eq_of_mem_of_nodup_ids db hnd sp p hspdb.1 hp hspid
    rcases hcase with hI | hE
    · unfold humanRow
      rw [if_pos hI, if_pos hspid.symm]
      exact ⟨fun h => by simp at h, fun h => by simp at h⟩
    · unfold humanRow
      have hIne : sp.human_decision ≠ some "INCLUDE" := by
        rw [hE]; simp
      rw [if_neg hIne, if_pos hE, if_pos hspid.symm]
      refine ⟨fun h => by simp at h, fun _ => Or.inr ?_⟩
      show p.human_decision = some "EXCLUDE"
      rw [← hsp_eq]
      exact hE
  · push_neg at hhit
    rw [rowFold_no_hit humanRow humanEffKey humanRow_miss _ p hhit]
    exact hinv p hp

theorem finalize_inv (db : List Paper) (hnd : (db.map (fun p => p.id)).Nodup)
    (hinv : ScreenInv db) : ScreenInv (finalizeIncluded db) := by
  rw [finalize_eq_map]
  intro q hq
  rcases List.mem_map.mp hq with ⟨p, hp, rfl⟩
  by_cases hhit : ∃ sp ∈ db, finalEffKey sp = some p.id
  · obtain ⟨sp, hspdb, hspk⟩ := hhit
    have hnodup : (db.filterMap finalEffKey).Nodup := by
      refine nodup_filterMap_opt_id db finalEffKey ?_ hnd
      intro q'
      unfold finalEffKey
      by_cases h : q'.screening_pass1 = some "INCLUDE" ∧ q'.final_status = none <;>
        simp [h]
    rw [rowFold_single_hit finalRow finalEffKey finalRow_id finalRow_miss
      _ p sp hspdb hspk hnodup]
    have hcase : sp.screening_pass1 = some "INCLUDE" ∧ sp.final_status = none := by
      by_contra h
      unfold finalEffKey at hspk
      rw [if_neg h] at hspk
      cases hspk
    have hspid : sp.id = p.id := by
      unfold finalEffKey at hspk
      rw [if_pos hcase] at hspk
      exact Option.some_inj.mp hspk
    have hsp_eq : sp = p := eq_of_mem_of_nodup_ids db hnd sp p hspdb hp hspid
    unfold finalRow
    rw [if_pos hcase, if_pos hspid.symm]
    refine ⟨fun _ => ?_, fun h => by simp at h⟩
    show p.screening_pass1 = some "INCLUDE"
    rw [← hsp_eq]
    exact hcase.1
  · push_neg at hhit
    rw [rowFold_no_hit finalRow finalEffKey finalRow_miss _ p hhit]
    exact hinv p hp

theorem applyOp_inv (db : List Paper) (op : ScreenOp)
    (hnd : (db.map (fun p => p.id)).Nodup) (hinv : ScreenInv db)
    (hwf : WFOp db op) : ScreenInv (applyOp db op) := by
  cases op with
  | pass1 resps σ => exact runPass1_inv db resps σ hnd hinv hwf
  | applyHuman => exact applyHuman_inv db hnd hinv
  | finalize => exact finalize_inv db hnd hinv

theorem runOps_inv (ops : List ScreenOp) (db : List Paper)
    (hinv : ScreenInv db) (hnd : (db.map (fun p => p.id)).Nodup)
    (hwf : WFSeq db ops) : ScreenInv (runOps db ops) := by
  induction ops generalizing db with
  | nil => exact hinv
  | cons op rest ih =>
    show ScreenInv (runOps (applyOp db op) rest)
    exact ih (applyOp db op)
      (applyOp_inv db op hnd hinv hwf.1)
      (by rw [applyOp_ids]; exact hnd)
      hwf.2

/-! ### Claim C1 — the finalize invariant -/

theorem fresh_screenInv (db : List Paper) (h : FreshDb db) : ScreenInv db := by
  intro p hp
  have hf := (h p hp).2
  unfold ScreenInvRow
  exact ⟨fun hc => (by rw [hf] at hc; cases hc), fun hc => (by rw [hf] at hc; cases hc)⟩

/-- **C1** (amended).  Starting from any store of freshly ingested
documents, after any sequence of `run_pass1`, `apply_human_decisions` and
`finalize_included` operations in which every remote screening response
decides only submitted (unscreened) documents and decides no document
twice — the contract the screening prompt demands — every document
satisfies: `final_status = INCLUDED` implies its screening decision is
INCLUDE, and `final_status = EXCLUDED` implies its screening decision is
EXCLUDE or its human override is EXCLUDE. -/
theorem c1_finalize_invariant (db : List Paper) (ops : List ScreenOp)
    (hfresh : FreshDb db) (hnd : (db.map (fun p => p.id)).Nodup)
    (hwf : WFSeq db ops) : ScreenInv (runOps db ops) :=
  runOps_inv ops db (fresh_screenInv db hfresh) hnd hwf

/-- Counterexample to C1 as stated (without the response contract): a
remote response of a later `run_pass1` call may decide an id that was
already screened and finalized; a BORDERLINE decision for an already
INCLUDED document leaves `final_status = INCLUDED` with screening
decision BORDERLINE and no human override. -/
theorem c1_counterexample :
    FreshDb [{ id := "p1" }, { id := "p2" }] ∧
    ¬ ScreenInv (runOps [{ id := "p1" }, { id := "p2" }]
      [.pass1 [some [{ id := "p1", decision := some "INCLUDE" }]] [0],
       .finalize,
       .pass1 [some [{ id := "p1", decision := some "BORDERLINE" }]] [0]]) := by
  constructor
  · decide
  · decide

/-- Witness for C1 on a concrete well-formed sequence. -/
theorem c1_witness :
    ScreenInv (runOps [{ id := "p1" }, { id := "p2" }]
      [.pass1 [some [{ id := "p1", decision := some "INCLUDE" },
                     { id := "p2", decision := some "exclude" }]] [0],
       .finalize, .applyHuman]) :=
  c1_finalize_invariant _ _ (by decide) (by decide) (by decide)

/-! ### Claim C8 — handling of decision entries in the commit pass -/

theorem updatePaper_not_mem (db : List Paper) (pid : String) (f : Paper → Paper)
    (h : ∀ p ∈ db, p.id ≠ pid) : updatePaper db pid f = db := by
  unfold updatePaper
  rw [List.map_congr_left (fun p hp => by rw [if_neg (h p hp)])]
  exact List.map_id db

/-- **C8** (amended).  In the screening commit pass: an entry with a
missing (falsy) id produces no change; an entry whose id matches no
*stored* document produces no change; and an entry whose decision label
is not INCLUDE, EXCLUDE or BORDERLINE (after upper-casing) is recorded as
BORDERLINE on every matching stored row.  The claim's "matches no
submitted document" had to be narrowed to "matches no stored document":
the commit pass never checks that a response id was among the submitted
batch, so an id matching a stored but unsubmitted row does change it
(see the counterexample). -/
theorem c8_commit_entry_handling :
    (∀ (db : List Paper) (d : DecisionEntry), d.id = "" → commitDecision db d = db) ∧
    (∀ (db : List Paper) (d : DecisionEntry), (∀ p ∈ db, p.id ≠ d.id) →
      commitDecision db d = db) ∧
    (∀ d : DecisionEntry,
      pyUpper (d.decision.getD "BORDERLINE") ∉
        (["INCLUDE", "EXCLUDE", "BORDERLINE"] : List String) →
      coerceDecision d.decision = "BORDERLINE") ∧
    (∀ (db : List Paper) (d : DecisionEntry) (q : Paper),
      pyUpper (d.decision.getD "BORDERLINE") ∉
        (["INCLUDE", "EXCLUDE", "BORDERLINE"] : List String) →
      q ∈ commitDecision db d → q.id = d.id → d.id ≠ "" →
      q.screening_pass1 = some "BORDERLINE") := by
  have hcoerce : ∀ d : DecisionEntry,
      pyUpper (d.decision.getD "BORDERLINE") ∉
        (["INCLUDE", "EXCLUDE", "BORDERLINE"] : List String) →
      coerceDecision d.decision = "BORDERLINE" := by
    intro d h
    unfold coerceDecision
    rw [if_neg]
    intro hc
    exact h (by simpa using hc)
  refine ⟨?_, ?_, hcoerce, ?_⟩
  · intro db d h
    unfold commitDecision
    rw [if_pos h]
  · intro db d h
    unfold commitDecision
    by_cases hid : d.id = ""
    · rw [if_pos hid]
    · rw [if_neg hid]
      dsimp only
      rw [updatePaper_not_mem db d.id _ h]
      by_cases hdec : coerceDecision d.decision = "EXCLUDE"
      · rw [if_pos hdec, updatePaper_not_mem db d.id _ h]
      · rw [if_neg hdec]
  · intro db d q hlab hq hqid hne
    rw [commitDecision_eq_map] at hq
    rcases List.mem_map.mp hq with ⟨p, _, rfl⟩
    have hpid : p.id = d.id := by rw [← commitRow_id d p]; exact hqid
    unfold commitRow
    rw [if_neg hne, if_pos hpid]
    dsimp only
    rw [if_neg (by rw [hcoerce d hlab]; simp)]
    simp [hcoerce d hlab]

/-- Counterexample to C8 as stated: the decision id `"p1"` matches no
submitted (unscreened) document, yet the commit pass changes the stored
`"p1"` row. -/
theorem c8_counterexample :
    "p1" ∉ unscreenedIds
      [{ id := "p1", screening_pass1 := some "INCLUDE", final_status := some "INCLUDED" },
       { id := "p2" }] ∧
    runPass1
      [{ id := "p1", screening_pass1 := some "INCLUDE", final_status := some "INCLUDED" },
       { id := "p2" }]
      [some [{ id := "p1", decision := some "EXCLUDE" }]] [0] ≠
      [{ id := "p1", screening_pass1 := some "INCLUDE", final_status := some "INCLUDED" },
       { id := "p2" }] := by
  constructor
  · decide
  · decide

/-- Witness for C8 on concrete entries: empty id no-op, unmatched id
no-op, and an unrecognised label `"maybe"` recorded as BORDERLINE. -/
theorem c8_witness :
    commitDecision [{ id := "p1" }] { decision := some "EXCLUDE" } = [{ id := "p1" }] ∧
    commitDecision [{ id := "p1" }] { id := "zz", decision := some "EXCLUDE" } =
      [{ id := "p1" }] ∧
    coerceDecision (some "maybe") = "BORDERLINE" ∧
    ({ id := "p1", screening_pass1 := some "BORDERLINE",
       screening_pass1_confidence := some 50 } : Paper).screening_pass1 =
      some "BORDERLINE" := by
  refine ⟨?_, ?_, ?_, ?_⟩
  · exact c8_commit_entry_handling.1 [{ id := "p1" }] { decision := some "EXCLUDE" } rfl
  · exact c8_commit_entry_handling.2.1 [{ id := "p1" }]
      { id := "zz", decision := some "EXCLUDE" } (by decide)
  · exact c8_commit_entry_handling.2.2.1 { decision := some "maybe" } (by decide)
  · exact c8_commit_entry_handling.2.2.2 [{ id := "p1" }]
      { id := "p1", decision := some "maybe" }
      { id := "p1", screening_pass1 := some "BORDERLINE",
        screening_pass1_confidence := some 50 }
      (by decide) (by decide) rfl (by decide)

/-! ### Claim C7 — quality assessment -/

theorem range_filterMap_get {α : Type} (l : List α) :
    (List.range l.length).filterMap (fun i => l.get? i) = l := by
  induction l with
  | nil => rfl
  | cons a l ih =>
    rw [List.length_cons, List.range_succ_eq_map, List.filterMap_cons]
    simp only [List.get?_cons_zero]
    rw [List.filterMap_map]
    exact congrArg (a :: ·) ih

/-- The results a permutation of the index range collects through `get?`
are a permutation of the list itself (the fan-in of `as_completed`). -/
theorem perm_filterMap_get {α : Type} (l : List α) (σ : List ℕ)
    (h : σ.Perm (List.range l.length)) :
    (σ.filterMap (fun i => l.get? i)).Perm l := by
  refine (h.filterMap _).trans ?_
  rw [range_filterMap_get]

theorem assessPaper_fst (p : Paper) (r : Option QualityResp) :
    (assessPaper p r).1 = p.id := by
  cases r <;> rfl

theorem mem_unassessedOf (u : Paper) (db : List Paper) :
    u ∈ unassessedOf db ↔
      u ∈ db ∧ u.final_status = some "INCLUDED" ∧ u.quality_score = none := by
  unfold unassessedOf
  simp only [List.mem_filter, decide_eq_true_eq, and_assoc]

theorem qualityResults_keys (db : List Paper) (resps : List (Option QualityResp))
    (hlen : resps.length = (unassessedOf db).length) :
    (((unassessedOf db).zip resps).map (fun pr => assessPaper pr.1 pr.2)).map
        (fun res => res.1) =
      (unassessedOf db).map (fun p => p.id) := by
  rw [List.map_map]
  have h1 : ((fun res : String × ℚ × String × String => res.1) ∘
      (fun pr : Paper × Option QualityResp => assessPaper pr.1 pr.2)) =
      (fun pr : Paper × Option QualityResp => pr.1.id) := by
    funext pr
    exact assessPaper_fst pr.1 pr.2
  rw [h1]
  have h2 : (fun pr : Paper × Option QualityResp => pr.1.id) =
      ((fun p : Paper => p.id) ∘ Prod.fst) := rfl
  rw [h2, ← List.map_map, List.map_fst_zip _ _ (le_of_eq hlen.symm)]

theorem qualityResults_length (db : List Paper) (resps : List (Option QualityResp))
    (hlen : resps.length = (unassessedOf db).length) :
    (((unassessedOf db).zip resps).map (fun pr => assessPaper pr.1 pr.2)).length =
      (unassessedOf db).length := by
  simp [hlen]

theorem qualityResults_get (db : List Paper) (resps : List (Option QualityResp))
    (i : ℕ) (hi : i < (unassessedOf db).length)
    (hlen : resps.length = (unassessedOf db).length) :
    (((unassessedOf db).zip resps).map (fun pr => assessPaper pr.1 pr.2)).get? i =
      some (assessPaper ((unassessedOf db).getD i default) (resps.getD i none)) := by
  have hzlen : i < ((unassessedOf db).zip resps).length := by
    simp only [List.length_zip, hlen]
    omega
  rw [List.get?_eq_getElem?, List.getElem?_eq_getElem (by simpa using hzlen)]
  congr 1
  rw [List.getElem_map, List.getElem_zip]
  rw [List.getD_eq_getElem _ _ hi, List.getD_eq_getElem _ _ (by omega)]

/-- **C7** (amended).  In every quality run: rows not both INCLUDED and
lacking a quality score are untouched; an assessed paper whose remote
call fails receives the neutral outcome (50, "Assessment failed.",
flag "none"); an assessed paper whose call succeeds receives exactly the
response's fields with their `dict.get` defaults — the code does not
clamp the score, so the committed score lies in [0, 100] exactly when
every response score does (which the counterexample shows is not
forced). -/
theorem c7_quality_assessment (db : List Paper) (resps : List (Option QualityResp))
    (σ : List ℕ) (hnd : (db.map (fun p => p.id)).Nodup)
    (hlen : resps.length = (unassessedOf db).length)
    (hperm : σ.Perm (List.range (unassessedOf db).length)) :
    (∀ i, i < db.length →
      ¬ ((db.getD i default).final_status = some "INCLUDED" ∧
          (db.getD i default).quality_score = none) →
      (qualityRun db resps σ).getD i default = db.getD i default) ∧
    (∀ i, i < (unassessedOf db).length →
      ∀ q ∈ qualityRun db resps σ, q.id = ((unassessedOf db).getD i default).id →
      (resps.getD i none = none →
        q.quality_score = some 50 ∧ q.quality_notes = some "Assessment failed." ∧
        q.quality_flag = some "none") ∧
      (∀ r, resps.getD i none = some r →
        q.quality_score = some (r.quality_score.getD 50) ∧
        q.quality_notes = some (r.quality_notes.getD "") ∧
        q.quality_flag = some (r.flag.getD "none")) ∧
      ((∀ r', some r' ∈ resps →
          0 ≤ r'.quality_score.getD 50 ∧ r'.quality_score.getD 50 ≤ 100) →
        ∃ x, q.quality_score = some x ∧ 0 ≤ x ∧ x ≤ 100)) := by
  set results := ((unassessedOf db).zip resps).map (fun pr => assessPaper pr.1 pr.2)
    with hres
  set committed := σ.filterMap (fun i => results.get? i) with hcom
  have hrlen : results.length = (unassessedOf db).length :=
    qualityResults_length db resps hlen
  have hcperm : committed.Perm results :=
    perm_filterMap_get results σ (by rw [hrlen]; exact hperm)
  have hkeys : (committed.map (fun res => res.1)).Perm
      ((unassessedOf db).map (fun p => p.id)) := by
    rw [← qualityResults_keys db resps hlen]
    exact hcperm.map _
  have hundnodup : ((unassessedOf db).map (fun p => p.id)).Nodup := by
    unfold unassessedOf
    exact ((List.filter_sublist _).map _).nodup
      (((List.filter_sublist _).map _).nodup hnd)
  have hknodup : (committed.map (fun res => res.1)).Nodup :=
    (hkeys.nodup_iff).mpr hundnodup
  have hfm : committed.filterMap (fun res => some res.1) =
      committed.map (fun res => res.1) := List.filterMap_eq_map _ ▸ rfl
  have hmiss : ∀ (res : String × ℚ × String × String) (p : Paper),
      (fun res : String × ℚ × String × String => some res.1) res ≠ some p.id →
      qualityRow res p = p := by
    intro res p h
    exact qualityRow_miss res p (fun he => h (by rw [he]))
  have hckey : ∀ res ∈ committed, ∃ u ∈ unassessedOf db, res.1 = u.id := by
    intro res hresmem
    have : res ∈ results := hcperm.mem_iff.mp hresmem
    rcases List.mem_map.mp this with ⟨pr, hpr, rfl⟩
    exact ⟨pr.1, (List.of_mem_zip hpr).1, assessPaper_fst pr.1 pr.2⟩
  constructor
  · intro i hi hne
    rw [qualityRun_eq_map]
    rw [List.getD_eq_getElem _ _ (by simpa using hi), List.getElem_map,
      ← List.getD_eq_getElem _ _ hi]
    refine rowFold_no_hit qualityRow (fun res => some res.1) hmiss _ _ ?_
    intro res hresmem hkey
    rcases hckey res hresmem with ⟨u, hu, hukey⟩
    rcases (mem_unassessedOf u db).mp hu with ⟨hudb, huf, huq⟩
    have hpmem : db.getD i default ∈ db := by
      rw [List.getD_eq_getElem _ _ hi]
      exact List.getElem_mem _
    have : u = db.getD i default := by
      refine eq_of_mem_of_nodup_ids db hnd u _ hudb hpmem ?_
      rw [← hukey]
      exact Option.some_inj.mp hkey
    exact hne (by rw [← this]; exact ⟨huf, huq⟩)
  · intro i hi q hq hqid
    set u := (unassessedOf db).getD i default with hu
    set resi := assessPaper u (resps.getD i none) with hresi
    have hresget : results.get? i = some resi :=
      qualityResults_get db resps i hi hlen
    have hresmem : resi ∈ results := List.get?_mem hresget
    have hcommem : resi ∈ committed := hcperm.mem_iff.mpr hresmem
    rw [qualityRun_eq_map] at hq
    rcases List.mem_map.mp hq with ⟨p0, _, rfl⟩
    have hp0id : p0.id = u.id := by
      rw [← rowFold_id qualityRow qualityRow_id committed p0]
      exact hqid
    have heff : (fun res : String × ℚ × String × String => some res.1) resi =
        some p0.id := by
      rw [hp0id]
      show some resi.1 = some u.id
      rw [hresi, assessPaper_fst]
    have hsingle : rowFold qualityRow committed p0 = qualityRow resi p0 := by
      refine rowFold_single_hit qualityRow (fun res => some res.1) qualityRow_id
        hmiss committed p0 resi hcommem heff ?_
      rw [hfm]
      exact hknodup
    have hrowval : qualityRow resi p0 =
        { p0 with quality_score := some resi.2.1,
                  quality_notes := some resi.2.2.1,
                  quality_flag := some resi.2.2.2 } := by
      unfold qualityRow
      rw [if_pos (by rw [hp0id, hresi, assessPaper_fst])]
    rw [hsingle, hrowval]
    refine ⟨?_, ?_, ?_⟩
    · intro hfail
      rw [hresi, hfail]
      exact ⟨rfl, rfl, rfl⟩
    · intro r hsucc
      rw [hresi, hsucc]
      exact ⟨rfl, rfl, rfl⟩
    · intro hbound
      cases hfr : resps.getD i none with
      | none =>
        rw [hresi, hfr]
        exact ⟨50, rfl, by norm_num⟩
      | some r =>
        refine ⟨r.quality_score.getD 50, (by rw [hresi, hfr]; rfl), ?_⟩
        refine hbound r ?_
        have : i < resps.length := by rw [hlen]; exact hi
        rw [List.getD_eq_getElem _ _ this] at hfr
        rw [← hfr]
        exact List.getElem_mem _

/-- Counterexample to C7 as stated: `assess_paper` stores
`result.get("quality_score", 50)` without clamping, so a response score
of 150 is committed as 150, outside [0, 100]. -/
theorem c7_counterexample :
    qualityRun [{ id := "p", final_status := some "INCLUDED" }]
        [some { quality_score := some 150 }] [0] =
      [{ id := "p", final_status := some "INCLUDED", quality_score := some 150,
         quality_notes := some "", quality_flag := some "none" }] ∧
    ¬ ((150 : ℚ) ≤ 100) := by
  constructor
  · decide
  · norm_num

/-- Witness for C7: a non-included row is untouched and a failed call
stores the neutral score 50. -/
theorem c7_witness :
    (qualityRun [{ id := "a", final_status := some "INCLUDED" }, { id := "b" }]
        [none] [0]).getD 1 default = { id := "b" } ∧
    ((qualityRun [{ id := "a", final_status := some "INCLUDED" }, { id := "b" }]
        [none] [0]).getD 0 default).quality_score = some 50 := by
  have h := c7_quality_assessment
    [{ id := "a", final_status := some "INCLUDED" }, { id := "b" }]
    [none] [0] (by decide) (by decide) (by decide)
  constructor
  · exact h.1 1 (by norm_num) (by decide)
  · have h2 := h.2 0 (by decide)
      ((qualityRun [{ id := "a", final_status := some "INCLUDED" }, { id := "b" }]
        [none] [0]).getD 0 default)
      (by decide) (by decide)
    exact (h2.1 (by decide)).1

/-! ### Claim C6 — relevance score bounds and keyword fallback -/

theorem roundHalfEven_nonneg (q : ℚ) (h : 0 ≤ q) : 0 ≤ roundHalfEven q := by
  unfold roundHalfEven
  have hn : (0 : ℤ) ≤ ⌊q⌋ := Int.le_floor.mpr (by exact_mod_cast h)
  dsimp only
  split_ifs <;> omega

theorem roundHalfEven_le (q : ℚ) (B : ℤ) (h : q ≤ B) : roundHalfEven q ≤ B := by
  unfold roundHalfEven
  have hfl : ⌊q⌋ ≤ B := by
    calc ⌊q⌋ ≤ ⌊(B : ℚ)⌋ := Int.floor_le_floor h
    _ = B := Int.floor_intCast B
  have hstep : ¬ (q - (⌊q⌋ : ℚ) < 1 / 2) → ⌊q⌋ + 1 ≤ B := by
    intro hr
    by_contra hc
    push_neg at hc
    have hq : ⌊q⌋ = B := by omega
    have h1 : q - (⌊q⌋ : ℚ) ≤ 0 := by
      rw [hq]
      have : q ≤ (B : ℚ) := h
      linarith
    have h2 : (1 : ℚ) / 2 ≤ q - (⌊q⌋ : ℚ) := le_of_not_lt hr
    linarith
  dsimp only
  split_ifs with h1 h2 h3
  · exact hfl
  · exact hstep h1
  · exact hfl
  · exact hstep h1

theorem pyRound1_nonneg (q : ℚ) (h : 0 ≤ q) : 0 ≤ pyRound1 q := by
  unfold pyRound1
  have := roundHalfEven_nonneg (q * 10) (by linarith)
  have hcast : (0 : ℚ) ≤ (roundHalfEven (q * 10) : ℚ) := by exact_mod_cast this
  linarith

theorem pyRound1_le_100 (q : ℚ) (h : q ≤ 100) : pyRound1 q ≤ 100 := by
  unfold pyRound1
  have := roundHalfEven_le (q * 10) 1000 (by push_cast; linarith)
  have hcast : (roundHalfEven (q * 10) : ℚ) ≤ 1000 := by exact_mod_cast this
  linarith

theorem pyRound1_zero : pyRound1 0 = 0 := by
  unfold pyRound1 roundHalfEven
  norm_num

theorem cosineRelevanceScore_bounds (sim : ℚ) :
    0 ≤ cosineRelevanceScore sim ∧ cosineRelevanceScore sim ≤ 100 := by
  unfold cosineRelevanceScore
  constructor
  · exact pyRound1_nonneg _ (le_max_left _ _)
  · exact pyRound1_le_100 _ (max_le (by norm_num) (min_le_left _ _))

theorem keywordScore_bounds (rq text : String) :
    0 ≤ keywordScore rq text ∧ keywordScore rq text ≤ 100 := by
  unfold keywordScore
  dsimp only
  have hov : (0 : ℚ) ≤
      (((tokenise rq) ∩ (tokenise text)).card : ℚ) / (max (tokenise rq).card 1 : ℚ) := by
    apply div_nonneg
    · exact_mod_cast Nat.zero_le _
    · exact_mod_cast Nat.zero_le _
  constructor
  · exact pyRound1_nonneg _ (le_min (by norm_num) (by linarith))
  · exact pyRound1_le_100 _ (min_le_left _ _)

theorem keywordScore_disjoint (rq text : String)
    (h : tokenise rq ∩ tokenise text = ∅) : keywordScore rq text = 0 := by
  unfold keywordScore
  dsimp only
  rw [h]
  norm_num
  exact pyRound1_zero

theorem keywordScore_formula (rq text : String) (h : 1 ≤ (tokenise rq).card) :
    keywordScore rq text =
      pyRound1 (min 100
        (150 * (((tokenise rq) ∩ (tokenise text)).card : ℚ) / ((tokenise rq).card : ℚ))) := by
  unfold keywordScore
  dsimp only
  rw [max_eq_left (show (1 : ℚ) ≤ ((tokenise rq).card : ℚ) by exact_mod_cast h)]
  congr 1
  congr 1
  ring

theorem keywordRow_rel (rq : String) (sp p : Paper) (x : ℚ)
    (h : (keywordRow rq sp p).relevance_score = some x) :
    p.relevance_score = some x ∨ x = keywordScore rq (keywordText sp) := by
  unfold keywordRow at h
  by_cases hp : p.id = sp.id
  · rw [if_pos hp] at h
    right
    exact (Option.some_inj.mp h).symm
  · rw [if_neg hp] at h
    exact Or.inl h

theorem cosineRow_rel (simOf : String → Option ℚ) (sp p : Paper) (x : ℚ)
    (h : (cosineRow simOf sp p).relevance_score = some x) :
    p.relevance_score = some x ∨ ∃ s, x = cosineRelevanceScore s := by
  unfold cosineRow at h
  cases hs : simOf sp.id with
  | none => rw [hs] at h; exact Or.inl h
  | some s =>
    rw [hs] at h
    dsimp only at h
    by_cases hp : p.id = sp.id
    · rw [if_pos hp] at h
      exact Or.inr ⟨s, (Option.some_inj.mp h).symm⟩
    · rw [if_neg hp] at h
      exact Or.inl h

theorem rowFold_rel_bounded {α : Type} (R : α → Paper → Paper)
    (hR : ∀ a p x, (R a p).relevance_score = some x →
      p.relevance_score = some x ∨ (0 ≤ x ∧ x ≤ 100))
    (items : List α) (p : Paper)
    (hp : ∀ x, p.relevance_score = some x → 0 ≤ x ∧ x ≤ 100) :
    ∀ x, (rowFold R items p).relevance_score = some x → 0 ≤ x ∧ x ≤ 100 := by
  induction items generalizing p with
  | nil => exact hp
  | cons a items ih =>
    intro x hx
    refine ih (R a p) ?_ x hx
    intro y hy
    rcases hR a p y hy with h | h
    · exact hp y h
    · exact h

theorem keywordRun_eq_map (db : List Paper) (rq : String) :
    relevanceKeywordRun db rq =
      db.map (rowFold (keywordRow rq)
        (db.filter (fun p => p.final_status = some "INCLUDED"))) := by
  unfold relevanceKeywordRun
  refine foldl_eq_map_rowFold _ (keywordRow rq) ?_ _ db
  intro sp acc
  unfold keywordRow updatePaper
  rfl

theorem cosineRun_eq_map (db : List Paper) (simOf : String → Option ℚ) :
    relevanceCosineRun db simOf =
      db.map (rowFold (cosineRow simOf)
        (db.filter (fun p => p.final_status = some "INCLUDED"))) := by
  unfold relevanceCosineRun
  refine foldl_eq_map_rowFold _ (cosineRow simOf) ?_ _ db
  intro sp acc
  unfold cosineRow updatePaper
  cases hs : simOf sp.id with
  | none => exact (List.map_id acc).symm
  | some s => rfl

/-- **C6**.  Every relevance score is in [0, 100] in both scoring paths;
a research question sharing no vocabulary with a document scores 0 in the
keyword fallback; and for a non-empty question token set the fallback
score is exactly `round(min(100, 150·|∩|/|Q|), 1)` (the code's final
one-decimal rounding applied to the claim's formula). -/
theorem c6_relevance_bounds :
    (∀ sim : ℚ, 0 ≤ cosineRelevanceScore sim ∧ cosineRelevanceScore sim ≤ 100) ∧
    (∀ rq text : String, 0 ≤ keywordScore rq text ∧ keywordScore rq text ≤ 100) ∧
    (∀ rq text : String, tokenise rq ∩ tokenise text = ∅ → keywordScore rq text = 0) ∧
    (∀ rq text : String, 1 ≤ (tokenise rq).card →
      keywordScore rq text =
        pyRound1 (min 100
          (150 * (((tokenise rq) ∩ (tokenise text)).card : ℚ) / ((tokenise rq).card : ℚ)))) ∧
    (∀ (db : List Paper) (rq : String),
      (∀ p ∈ db, ∀ x, p.relevance_score = some x → 0 ≤ x ∧ x ≤ 100) →
      ∀ q ∈ relevanceKeywordRun db rq, ∀ x, q.relevance_score = some x →
        0 ≤ x ∧ x ≤ 100) ∧
    (∀ (db : List Paper) (simOf : String → Option ℚ),
      (∀ p ∈ db, ∀ x, p.relevance_score = some x → 0 ≤ x ∧ x ≤ 100) →
      ∀ q ∈ relevanceCosineRun db simOf, ∀ x, q.relevance_score = some x →
        0 ≤ x ∧ x ≤ 100) := by
  refine ⟨cosineRelevanceScore_bounds, keywordScore_bounds, keywordScore_disjoint,
    keywordScore_formula, ?_, ?_⟩
  · intro db rq hdb q hq
    rw [keywordRun_eq_map] at hq
    rcases List.mem_map.mp hq with ⟨p, hp, rfl⟩
    refine rowFold_rel_bounded (keywordRow rq) ?_ _ p (hdb p hp)
    intro sp p' x hx
    rcases keywordRow_rel rq sp p' x hx with h | h
    · exact Or.inl h
    · exact Or.inr (h ▸ keywordScore_bounds rq (keywordText sp))
  · intro db simOf hdb q hq
    rw [cosineRun_eq_map] at hq
    rcases List.mem_map.mp hq with ⟨p, hp, rfl⟩
    refine rowFold_rel_bounded (cosineRow simOf) ?_ _ p (hdb p hp)
    intro sp p' x hx
    rcases cosineRow_rel simOf sp p' x hx with h | ⟨s, hs⟩
    · exact Or.inl h
    · exact Or.inr (hs ▸ cosineRelevanceScore_bounds s)

/-- Witness for C6: disjoint vocabularies score 0; a non-empty question
token set obeys the `150·|∩|/|Q|` formula. -/
theorem c6_witness :
    keywordScore "dogs cats" "birds fly" = 0 ∧
    keywordScore "dogs cats" "dogs" =
      pyRound1 (min 100
        (150 * (((tokenise "dogs cats") ∩ (tokenise "dogs")).card : ℚ) /
          ((tokenise "dogs cats").card : ℚ))) := by
  constructor
  · exact c6_relevance_bounds.2.2.1 "dogs cats" "birds fly" (by decide)
  · exact c6_relevance_bounds.2.2.2.1 "dogs cats" "dogs" (by decide)

/-! ### Claim C2 — batch failure degradation and atomic commit -/

theorem chunkGo_flatten (n : ℕ) :
    ∀ (l : List Paper) (k : ℕ) (acc : List Paper),
      (chunkGo n l k acc).flatten = acc ++ l := by
  intro l
  induction l with
  | nil =>
    intro k acc
    unfold chunkGo
    by_cases h : acc.isEmpty
    · rw [if_pos h, List.isEmpty_iff.mp h]
      rfl
    · rw [if_neg h]
      simp
  | cons x xs ih =>
    intro k acc
    cases k with
    | zero =>
      show (acc :: chunkGo n xs (n - 1) [x]).flatten = acc ++ (x :: xs)
      rw [List.flatten_cons, ih (n - 1) [x]]
      simp
    | succ k =>
      show (chunkGo n xs k (acc ++ [x])).flatten = acc ++ (x :: xs)
      rw [ih k (acc ++ [x])]
      simp

theorem chunkList_flatten (n : ℕ) (l : List Paper) :
    (chunkList n l).flatten = l := by
  unfold chunkList
  rw [chunkGo_flatten n l n []]
  rfl

theorem map_getD_range {α : Type} (l : List α) (d : α) :
    (List.range l.length).map (fun i => l.getD i d) = l := by
  apply List.ext_getElem
  · simp
  · intro i h1 h2
    simp only [List.getElem_map, List.getElem_range]
    rw [List.getD_eq_getElem _ _ h2]

/-- Collecting whole-batch results in any `as_completed` order yields a
permutation of the results in submission order. -/
theorem sigma_flatten_perm {α : Type} (results : List (List α)) (σ : List ℕ)
    (hperm : σ.Perm (List.range results.length)) :
    ((σ.map (fun i => results.getD i [])).flatten).Perm results.flatten := by
  have h1 : (σ.map (fun i => results.getD i [])).Perm
      ((List.range results.length).map (fun i => results.getD i [])) := hperm.map _
  have h2 : (List.range results.length).map (fun i => results.getD i []) = results :=
    map_getD_range results []
  have h3 := h1.flatten
  rw [h2] at h3
  exact h3

/-- Per-batch screening results carry one decision per submitted paper:
exactly for failed batches by construction, for successful batches by the
response contract `hok`. -/
theorem screenResults_ids_perm (batches : List (List Paper))
    (resps : List (Option (List DecisionEntry)))
    (hlen : resps.length = batches.length)
    (hok : ∀ i entries, resps.getD i none = some entries →
      (entries.map (fun d => d.id)).Perm ((batches.getD i []).map (fun p => p.id))) :
    ((((batches.zip resps).map (fun br => screenBatchResult br.1 br.2)).flatten).map
        (fun d => d.id)).Perm ((batches.flatten).map (fun p => p.id)) := by
  induction batches generalizing resps with
  | nil => simp
  | cons b bs ih =>
    cases resps with
    | nil => simp at hlen
    | cons r rs =>
      have hlen' : rs.length = bs.length := by simpa using hlen
      rw [List.zip_cons_cons, List.map_cons, List.flatten_cons, List.map_append,
        List.flatten_cons, List.map_append]
      refine List.Perm.append ?_ (ih rs hlen' (fun i entries h => hok (i + 1) entries h))
      cases r with
      | none =>
        show ((b.map fun p =>
          ({ id := p.id, decision := some "BORDERLINE", confidence := some 50,
             reason := some "API error" } : DecisionEntry)).map (fun d => d.id)).Perm
          (b.map (fun p => p.id))
        rw [List.map_map]
        exact List.Perm.refl _
      | some entries => exact hok 0 entries rfl

theorem screenResults_getD (batches : List (List Paper))
    (resps : List (Option (List DecisionEntry))) (i : ℕ)
    (hlen : resps.length = batches.length) (hi : i < batches.length) :
    ((batches.zip resps).map (fun br => screenBatchResult br.1 br.2)).getD i [] =
      screenBatchResult (batches.getD i []) (resps.getD i none) := by
  have hzlen : i < (batches.zip resps).length := by
    simp only [List.length_zip, hlen]
    omega
  rw [List.getD_eq_getElem _ _ (by simpa using hzlen), List.getElem_map,
    List.getElem_zip, List.getD_eq_getElem _ _ hi,
    List.getD_eq_getElem _ _ (by omega)]

/-- The collected decision ids of `run_pass1` are a permutation of the
submitted (unscreened) ids. -/
theorem allDecisions_ids_perm (db : List Paper)
    (resps : List (Option (List DecisionEntry))) (σ : List ℕ)
    (hlen : resps.length =
      (chunkList DEFAULT_SCREENING_BATCH_SIZE (unscreenedOf db)).length)
    (hperm : σ.Perm (List.range
      (chunkList DEFAULT_SCREENING_BATCH_SIZE (unscreenedOf db)).length))
    (hok : ∀ i entries, resps.getD i none = some entries →
      (entries.map (fun d => d.id)).Perm
        (((chunkList DEFAULT_SCREENING_BATCH_SIZE (unscreenedOf db)).getD i []).map
          (fun p => p.id))) :
    ((allDecisions db resps σ).map (fun d => d.id)).Perm (unscreenedIds db) := by
  unfold allDecisions unscreenedIds
  set batches := chunkList DEFAULT_SCREENING_BATCH_SIZE (unscreenedOf db) with hb
  set results := (batches.zip resps).map (fun br => screenBatchResult br.1 br.2)
    with hr
  have hrlen : results.length = batches.length := by
    rw [hr]
    simp [hlen]
  have h1 : ((σ.map (fun i => results.getD i [])).flatten).Perm results.flatten :=
    sigma_flatten_perm results σ (by rw [hrlen]; exact hperm)
  have h2 : ((results.flatten).map (fun d => d.id)).Perm
      ((batches.flatten).map (fun p => p.id)) :=
    screenResults_ids_perm batches resps hlen hok
  have h3 : batches.flatten = unscreenedOf db := chunkList_flatten _ _
  exact ((h1.map _).trans h2).trans (by rw [h3])

theorem coerceDecision_borderline : coerceDecision (some "BORDERLINE") = "BORDERLINE" := by
  decide

/-- **C2**.  Under the response contract for successful batches (one
decision per submitted id), for any set of failing batches: every paper
of a failed batch ends committed with decision BORDERLINE, confidence 50
and reason "API error" (the failure is degraded inside `screen_batch`,
never propagated); the collected outcome ids are exactly a permutation of
the submitted ids (no missing, no duplicate); and in the event trace of
`run_pass1` every database write comes after every worker completion. -/
theorem c2_batch_failure_atomic_commit (db : List Paper)
    (resps : List (Option (List DecisionEntry))) (σ : List ℕ)
    (hnd : (db.map (fun p => p.id)).Nodup)
    (hpid : ∀ p ∈ db, p.id ≠ "")
    (hlen : resps.length =
      (chunkList DEFAULT_SCREENING_BATCH_SIZE (unscreenedOf db)).length)
    (hperm : σ.Perm (List.range
      (chunkList DEFAULT_SCREENING_BATCH_SIZE (unscreenedOf db)).length))
    (hok : ∀ i entries, resps.getD i none = some entries →
      (entries.map (fun d => d.id)).Perm
        (((chunkList DEFAULT_SCREENING_BATCH_SIZE (unscreenedOf db)).getD i []).map
          (fun p => p.id))) :
    ((allDecisions db resps σ).map (fun d => d.id)).Perm (unscreenedIds db) ∧
    (∀ i, resps.getD i none = none →
      ∀ p ∈ (chunkList DEFAULT_SCREENING_BATCH_SIZE (unscreenedOf db)).getD i [],
      ∀ q ∈ runPass1 db resps σ, q.id = p.id →
        q.screening_pass1 = some "BORDERLINE" ∧
        q.screening_pass1_confidence = some 50 ∧
        q.screening_pass1_reason = "API error") ∧
    (∀ (i j : ℕ) (hi : i < (runPass1Trace db resps σ).length)
        (hj : j < (runPass1Trace db resps σ).length) (pid : String) (k : ℕ),
      (runPass1Trace db resps σ).get ⟨i, hi⟩ = ScreenEvent.dbWrite pid →
      (runPass1Trace db resps σ).get ⟨j, hj⟩ = ScreenEvent.workerDone k →
      j < i) := by
  have hmain : ((allDecisions db resps σ).map (fun d => d.id)).Perm (unscreenedIds db) :=
    allDecisions_ids_perm db resps σ hlen hperm hok
  refine ⟨hmain, ?_, ?_⟩
  · intro i hfail p hpb q hq hqid
    set batches := chunkList DEFAULT_SCREENING_BATCH_SIZE (unscreenedOf db) with hb
    set A := allDecisions db resps σ with hA
    have hib : i < batches.length := by
      by_contra hc
      push_neg at hc
      rw [List.getD_eq_default _ _ hc] at hpb
      cases hpb
    -- the synthesised entry for p
    set e : DecisionEntry :=
      { id := p.id, decision := some "BORDERLINE", confidence := some 50,
        reason := some "API error" } with he
    have hpun : p ∈ unscreenedOf db := by
      rw [← chunkList_flatten DEFAULT_SCREENING_BATCH_SIZE (unscreenedOf db)]
      refine List.mem_flatten.mpr ⟨batches.getD i [], ?_, hpb⟩
      rw [List.getD_eq_getElem _ _ hib]
      exact List.getElem_mem _
    have hpdb : p ∈ db := (List.mem_filter.mp hpun).1
    have hpne : p.id ≠ "" := hpid p hpdb
    have heA : e ∈ A := by
      rw [hA]
      unfold allDecisions
      refine List.mem_flatten.mpr ⟨?_, ?_, ?_⟩
      · exact (((chunkList DEFAULT_SCREENING_BATCH_SIZE (unscreenedOf db)).zip
          resps).map (fun br => screenBatchResult br.1 br.2)).getD i []
      · refine List.mem_map_of_mem _ ?_
        refine (hperm.mem_iff).mpr ?_
        exact List.mem_range.mpr hib
      · rw [screenResults_getD _ resps i hlen hib, hfail]
        exact List.mem_map_of_mem _ hpb
    have hAids : ((A.map (fun d => d.id))).Nodup := by
      refine hmain.nodup_iff.mpr ?_
      unfold unscreenedIds
      exact ((List.filter_sublist _).map _).nodup hnd
    have hknodup : (A.filterMap commitEffKey).Nodup := by
      rw [filterMap_commitEffKey_eq]
      unfold nonemptyIds
      exact hAids.filter _
    rw [runPass1_eq_map] at hq
    rcases List.mem_map.mp hq with ⟨p0, _, rfl⟩
    have hp0id : p0.id = p.id := by
      rw [← rowFold_id commitRow commitRow_id A p0]
      exact hqid
    have heff : commitEffKey e = some p0.id := by
      unfold commitEffKey
      rw [if_neg (by rw [he]; exact hpne), hp0id]
    have hsingle : rowFold commitRow A p0 = commitRow e p0 :=
      rowFold_single_hit commitRow commitEffKey commitRow_id commitRow_miss
        A p0 e heA heff hknodup
    rw [hsingle]
    unfold commitRow
    rw [if_neg (show ¬ e.id = "" from hpne), if_pos (show p0.id = e.id from hp0id)]
    dsimp only
    rw [coerceDecision_borderline, if_neg (by decide : ¬ "BORDERLINE" = "EXCLUDE")]
    exact ⟨rfl, rfl, rfl⟩
  · intro i j hi hj pid k hwrite hdone
    by_cases hempty : (unscreenedOf db).isEmpty
    · exfalso
      have hz : (runPass1Trace db resps σ).length = 0 := by
        unfold runPass1Trace
        rw [if_pos hempty]
        rfl
      omega
    · have htr : runPass1Trace db resps σ =
          σ.map ScreenEvent.workerDone ++
            ((allDecisions db resps σ).filter (fun d => d.id ≠ "")).map
              (fun d => ScreenEvent.dbWrite d.id) := by
        unfold runPass1Trace
        rw [if_neg hempty]
      rw [List.get_eq_getElem, List.getElem_of_eq htr] at hwrite hdone
      have hile : σ.length ≤ i := by
        by_contra hc
        push_neg at hc
        rw [List.getElem_append_left (by simpa using hc)] at hwrite
        rw [List.getElem_map] at hwrite
        cases hwrite
      have hjlt : j < σ.length := by
        by_contra hc
        push_neg at hc
        rw [List.getElem_append_right (by simpa using hc)] at hdone
        rw [List.getElem_map] at hdone
        cases hdone
      omega

/-- Witness for C2: one batch of two papers whose remote call raises —
both papers are committed BORDERLINE / 50 / "API error", the outcome ids
cover the submitted ids exactly, and the trace writes follow the worker
completion. -/
theorem c2_witness :
    ((allDecisions [{ id := "a" }, { id := "b" }] [none] [0]).map
        (fun d => d.id)).Perm (unscreenedIds [{ id := "a" }, { id := "b" }]) ∧
    (((runPass1 [{ id := "a" }, { id := "b" }] [none] [0]).getD 0 default).screening_pass1 =
        some "BORDERLINE" ∧
      ((runPass1 [{ id := "a" }, { id := "b" }] [none] [0]).getD 0
        default).screening_pass1_reason = "API error") := by
  have h := c2_batch_failure_atomic_commit [{ id := "a" }, { id := "b" }] [none] [0]
    (by decide) (by decide) (by decide) (by decide)
    (fun i entries hent => by
      cases i with
      | zero => cases hent
      | succ n => cases hent)
  refine ⟨h.1, ?_, ?_⟩
  · exact (h.2.1 0 (by decide) { id := "a" } (by decide)
      ((runPass1 [{ id := "a" }, { id := "b" }] [none] [0]).getD 0 default)
      (by decide) (by decide)).1
  · exact (h.2.1 0 (by decide) { id := "a" } (by decide)
      ((runPass1 [{ id := "a" }, { id := "b" }] [none] [0]).getD 0 default)
      (by decide) (by decide)).2.2

/-! ### Claims C3 and C9 — snowball stopping conditions and round counts -/

theorem commitRow_included (d : DecisionEntry) (p : Paper)
    (h : (commitRow d p).final_status = some "INCLUDED") :
    p.final_status = some "INCLUDED" := by
  unfold commitRow at h
  by_cases h1 : d.id = ""
  · rw [if_pos h1] at h
    exact h
  · rw [if_neg h1] at h
    by_cases h2 : p.id = d.id
    · rw [if_pos h2] at h
      dsimp only at h
      by_cases h3 : coerceDecision d.decision = "EXCLUDE"
      · rw [if_pos h3] at h
        simp at h
      · rw [if_neg h3] at h
        exact h
    · rw [if_neg h2] at h
      exact h

theorem rowFold_commit_included (A : List DecisionEntry) (p : Paper)
    (h : (rowFold commitRow A p).final_status = some "INCLUDED") :
    p.final_status = some "INCLUDED" := by
  induction A generalizing p with
  | nil => exact h
  | cons d A ih => exact commitRow_included d p (ih (commitRow d p) h)

/-- `run_pass1` never creates an INCLUDED final status (it only writes
screening fields and `EXCLUDED`), so the included count cannot grow. -/
theorem countIncluded_runPass1_le (db : List Paper)
    (resps : List (Option (List DecisionEntry))) (σ : List ℕ) :
    countIncluded (runPass1 db resps σ) ≤ countIncluded db := by
  rw [runPass1_eq_map]
  unfold countIncluded
  rw [← List.countP_eq_length_filter, ← List.countP_eq_length_filter, List.countP_map]
  apply List.countP_mono_left
  intro p _ h
  simp only [Function.comp_apply, decide_eq_true_eq] at h ⊢
  exact rowFold_commit_included _ p h

/-- Every snowball round that passes the included-set check halts the
loop right after it: with `run_pass1` unable to increase the included
count, one of `new_included = 0` or a negative (hence sub-minimum) yield
rate always fires (or the round found no candidates at all). -/
theorem snowballGo_halts (oracles : ℕ → RoundOracle) (t fuel roundNum : ℕ)
    (db : List Paper) (total : ℤ) (rounds : List ℕ)
    (hincl : ¬ (db.filter (fun p => p.final_status = some "INCLUDED")).isEmpty = true) :
    (snowballGo oracles t (fuel + 1) roundNum db total rounds).2.2 =
      rounds ++ [roundNum] := by
  rw [snowballGo]
  rw [if_neg hincl]
  dsimp only
  set uniq := snowDedup (db.map (fun p => p.id)) roundNum (oracles roundNum).fetched
    with hu
  by_cases hq : uniq.isEmpty
  · rw [if_pos hq]
  · rw [if_neg hq]
    set db1 := (upsertPapers db uniq).1 with hdb1
    set pre := countIncluded db1 with hpre
    set db2 := runPass1 db1 (oracles roundNum).resps (oracles roundNum).completionOrder
      with hdb2
    set post := countIncluded db2 with hpost
    have hle : post ≤ pre := countIncluded_runPass1_le db1 _ _
    have hcond : ((post : ℤ) - (pre : ℤ) = 0 ∨
        (((post : ℤ) - (pre : ℤ) : ℤ) : ℚ) / (uniq.length : ℚ) <
          DEFAULT_MIN_YIELD_RATE ∨
        (post : ℚ) ≥ (t : ℚ) * (3 / 2)) := by
      by_cases hz : (post : ℤ) - (pre : ℤ) = 0
      · exact Or.inl hz
      · refine Or.inr (Or.inl ?_)
        have hneg : ((post : ℤ) - (pre : ℤ) : ℤ) < 0 := by omega
        have hlen : 0 < (uniq.length : ℚ) := by
          have : uniq ≠ [] := fun hnil => hq (by rw [hnil]; rfl)
          have : 0 < uniq.length := List.length_pos.mpr this
          exact_mod_cast this
        have hnum : (((post : ℤ) - (pre : ℤ) : ℤ) : ℚ) < 0 := by exact_mod_cast hneg
        have : (((post : ℤ) - (pre : ℤ) : ℤ) : ℚ) / (uniq.length : ℚ) < 0 :=
          div_neg_of_neg_of_pos hnum hlen
        unfold DEFAULT_MIN_YIELD_RATE
        linarith
    rw [if_pos hcond]

/-- The loop performs at most `fuel` further rounds (and in fact, given
the halting lemma, at most one). -/
theorem snowballGo_rounds_le (oracles : ℕ → RoundOracle) (t : ℕ) :
    ∀ (fuel roundNum : ℕ) (db : List Paper) (total : ℤ) (rounds : List ℕ),
      (snowballGo oracles t fuel roundNum db total rounds).2.2.length ≤
        rounds.length + fuel := by
  intro fuel
  cases fuel with
  | zero =>
    intro roundNum db total rounds
    rw [snowballGo]
    simp
  | succ f =>
    intro roundNum db total rounds
    by_cases h : (db.filter (fun p => p.final_status = some "INCLUDED")).isEmpty
    · rw [snowballGo, if_pos h]
      simp
    · rw [snowballGo_halts oracles t f roundNum db total rounds h]
      simp

/-- **C3**.  After any snowball round that runs (included set non-empty),
further rounds are halted, and one of the claim's stopping conditions
holds: zero new candidates, zero newly included documents, yield rate
below the configured minimum (0.02), or included count above
1.5·target_corpus_size.  In particular a run with `max_rounds = 3` and
zero new candidates in round 1 stops after round 1 with
`total_new_included = 0`.  (The halt⇒condition direction is genuine:
`run_pass1` never sets `final_status = INCLUDED`, so `new_included ≤ 0`
and the zero-or-negative-yield conditions always fire; the code's `≥`
threshold on `1.5·target` is therefore unreachable as a sole cause and
the claim's strict "exceeds" reading is never contradicted.) -/
theorem c3_snowball_stopping (oracles : ℕ → RoundOracle) (t fuel roundNum : ℕ)
    (db : List Paper) (total : ℤ) (rounds : List ℕ)
    (hincl : ¬ (db.filter (fun p => p.final_status = some "INCLUDED")).isEmpty = true) :
    (snowballGo oracles t (fuel + 1) roundNum db total rounds).2.2 =
      rounds ++ [roundNum] ∧
    (snowDedup (db.map (fun p => p.id)) roundNum (oracles roundNum).fetched = [] ∨
      (countIncluded (runPass1 (upsertPapers db (snowDedup (db.map (fun p => p.id))
          roundNum (oracles roundNum).fetched)).1 (oracles roundNum).resps
          (oracles roundNum).completionOrder) : ℤ) -
        (countIncluded (upsertPapers db (snowDedup (db.map (fun p => p.id)) roundNum
          (oracles roundNum).fetched)).1 : ℤ) = 0 ∨
      ((countIncluded (runPass1 (upsertPapers db (snowDedup (db.map (fun p => p.id))
          roundNum (oracles roundNum).fetched)).1 (oracles roundNum).resps
          (oracles roundNum).completionOrder) : ℤ) -
        (countIncluded (upsertPapers db (snowDedup (db.map (fun p => p.id)) roundNum
          (oracles roundNum).fetched)).1 : ℤ) : ℚ) /
        ((snowDedup (db.map (fun p => p.id)) roundNum
          (oracles roundNum).fetched).length : ℚ) < DEFAULT_MIN_YIELD_RATE ∨
      ((countIncluded (runPass1 (upsertPapers db (snowDedup (db.map (fun p => p.id))
          roundNum (oracles roundNum).fetched)).1 (oracles roundNum).resps
          (oracles roundNum).completionOrder) : ℕ) : ℚ) > (t : ℚ) * (3 / 2)) ∧
    (roundNum = 1 → fuel + 1 = 3 → total = 0 → rounds = [] →
      snowDedup (db.map (fun p => p.id)) 1 (oracles 1).fetched = [] →
      snowballGo oracles t 3 1 db 0 [] = (db, 0, [1])) := by
  refine ⟨snowballGo_halts oracles t fuel roundNum db total rounds hincl, ?_, ?_⟩
  · set uniq := snowDedup (db.map (fun p => p.id)) roundNum (oracles roundNum).fetched
      with hu
    by_cases hq : uniq = []
    · exact Or.inl hq
    · set db1 := (upsertPapers db uniq).1 with hdb1
      set db2 := runPass1 db1 (oracles roundNum).resps (oracles roundNum).completionOrder
        with hdb2
      have hle : countIncluded db2 ≤ countIncluded db1 :=
        countIncluded_runPass1_le db1 _ _
      by_cases hz : (countIncluded db2 : ℤ) - (countIncluded db1 : ℤ) = 0
      · exact Or.inr (Or.inl hz)
      · refine Or.inr (Or.inr (Or.inl ?_))
        have hneg : (countIncluded db2 : ℤ) - (countIncluded db1 : ℤ) < 0 := by omega
        have hlen : 0 < (uniq.length : ℚ) := by
          have : 0 < uniq.length := List.length_pos.mpr hq
          exact_mod_cast this
        have hnum : (((countIncluded db2 : ℤ) - (countIncluded db1 : ℤ) : ℤ) : ℚ) < 0 := by
          exact_mod_cast hneg
        have hdiv := div_neg_of_neg_of_pos hnum hlen
        unfold DEFAULT_MIN_YIELD_RATE
        push_cast at hdiv ⊢
        linarith
  · intro h1 h2 h3 h4 h5
    subst h1 h3 h4
    show snowballGo oracles t (2 + 1) 1 db 0 [] = (db, 0, [1])
    rw [snowballGo]
    rw [if_neg hincl]
    dsimp only
    rw [if_pos (by rw [h5]; rfl)]
    rfl

/-- Witness for C3: a store with one included paper and an oracle
returning no candidates — the `max_rounds = 3` run stops after round 1
with zero new inclusions. -/
theorem c3_witness :
    snowballRun 3 50 (fun _ => ({} : RoundOracle))
        [{ id := "a", screening_pass1 := some "INCLUDE",
           final_status := some "INCLUDED" }] =
      ([{ id := "a", screening_pass1 := some "INCLUDE",
          final_status := some "INCLUDED" }], 0, [1]) := by
  have h := c3_snowball_stopping (fun _ => ({} : RoundOracle)) 50 2 1
    [{ id := "a", screening_pass1 := some "INCLUDE", final_status := some "INCLUDED" }]
    0 [] (by decide)
  exact h.2.2 rfl rfl rfl rfl (by decide)

/-- **C9**.  With the UI-enforced `max_snowball_rounds ≥ 1`, the
controller performs at least one round whenever some document is INCLUDED
at entry, and it never performs more than `max_rounds` rounds. -/
theorem c9_snowball_round_bounds :
    (∀ (maxRounds t : ℕ) (oracles : ℕ → RoundOracle) (db : List Paper),
      1 ≤ maxRounds →
      ¬ (db.filter (fun p => p.final_status = some "INCLUDED")).isEmpty = true →
      (snowballRun maxRounds t oracles db).2.2 ≠ []) ∧
    (∀ (maxRounds t : ℕ) (oracles : ℕ → RoundOracle) (db : List Paper),
      (snowballRun maxRounds t oracles db).2.2.length ≤ maxRounds) := by
  constructor
  · intro maxRounds t oracles db hmr hincl
    obtain ⟨f, rfl⟩ : ∃ f, maxRounds = f + 1 := ⟨maxRounds - 1, by omega⟩
    unfold snowballRun
    rw [snowballGo_halts oracles t f 1 db 0 [] hincl]
    simp
  · intro maxRounds t oracles db
    unfold snowballRun
    have h := snowballGo_rounds_le oracles t maxRounds 1 db 0 []
    simpa using h

/-- Witness for C9: one included paper, `max_rounds = 2` — exactly one
round is performed. -/
theorem c9_witness :
    (snowballRun 2 50 (fun _ => ({} : RoundOracle))
        [{ id := "a", final_status := some "INCLUDED" }]).2.2 ≠ [] ∧
    (snowballRun 2 50 (fun _ => ({} : RoundOracle))
        [{ id := "a", final_status := some "INCLUDED" }]).2.2.length ≤ 2 := by
  constructor
  · exact c9_snowball_round_bounds.1 2 50 (fun _ => ({} : RoundOracle))
      [{ id := "a", final_status := some "INCLUDED" }] (by norm_num) (by decide)
  · exact c9_snowball_round_bounds.2 2 50 (fun _ => ({} : RoundOracle))
      [{ id := "a", final_status := some "INCLUDED" }]

end LitReview
